import Mathlib

/-!
Verification development for a Kconfig language-tooling backend
(lexer, recursive-descent parser, and workspace-wide symbol index).

Source texts are modelled as lists of bytes (`Str := List Nat`), mirroring
the byte cursor of the original lexer.  All recursion that is not
structural in the source is driven by an explicit fuel argument so that
every definition is executable by kernel reduction; each wrapper supplies
fuel that is sufficient for the loop it models (every loop step consumes
at least one byte or one token).
-/

set_option maxRecDepth 20000

namespace Kconfig

/-- Byte strings: the model of Rust `&str`/`String` contents. -/
abbrev Str := List Nat

/-- ASCII encoding of a Lean string literal, used to write byte strings readably. -/
def ascii (s : String) : Str := s.data.map Char.toNat

/-- Byte-offset span in source text (field `stop` models the source field `end`,
which is a reserved word here). -/
structure Span where
  start : Nat
  stop : Nat
deriving DecidableEq, Repr

/-- `Span::merge`: min of starts, max of ends. -/
def Span.merge (s t : Span) : Span :=
  ⟨min s.start t.start, max s.stop t.stop⟩

/-- Token kinds, mirroring `TokenKind` in the lexer. -/
inductive TokenKind where
  | config | menuConfig | choice | endChoice | commentKw
  | menu | endMenu | ifTok | endIf | sourceKw | mainMenu
  | boolTk | tristate | stringType | hex | int
  | prompt | default | defBool | defTristate | depends | on
  | select | imply | visible | range | help | modules
  | transitional | optional
  | eq | notEq | less | greater | lessEq | greaterEq
  | not | and | or | openParen | closeParen
  | stringLit (s : Str)
  | ident (s : Str)
  | macroTok (s : Str)
  | lineComment (s : Str)
  | newline
  | eof
deriving DecidableEq, Repr

structure Token where
  kind : TokenKind
  span : Span
deriving DecidableEq, Repr

/-- `is_ident_start`: ASCII alphanumeric or underscore. -/
def isIdentStart (b : Nat) : Bool :=
  (48 ≤ b && b ≤ 57) || (65 ≤ b && b ≤ 90) || (97 ≤ b && b ≤ 122) || b == 95

/-- `is_ident_cont`: ASCII alphanumeric, underscore, or hyphen. -/
def isIdentCont (b : Nat) : Bool :=
  isIdentStart b || b == 45

/-- The fixed keyword table (`keyword`), including the dead legacy alias
entry for the bytes of the text between `help` markers. -/
def keyword (s : Str) : Option TokenKind :=
  if s = ascii "config" then some .config
  else if s = ascii "menuconfig" then some .menuConfig
  else if s = ascii "choice" then some .choice
  else if s = ascii "endchoice" then some .endChoice
  else if s = ascii "comment" then some .commentKw
  else if s = ascii "menu" then some .menu
  else if s = ascii "endmenu" then some .endMenu
  else if s = ascii "if" then some .ifTok
  else if s = ascii "endif" then some .endIf
  else if s = ascii "source" then some .sourceKw
  else if s = ascii "mainmenu" then some .mainMenu
  else if s = ascii "bool" then some .boolTk
  else if s = ascii "tristate" then some .tristate
  else if s = ascii "string" then some .stringType
  else if s = ascii "hex" then some .hex
  else if s = ascii "int" then some .int
  else if s = ascii "prompt" then some .prompt
  else if s = ascii "default" then some .default
  else if s = ascii "def_bool" then some .defBool
  else if s = ascii "def_tristate" then some .defTristate
  else if s = ascii "depends" then some .depends
  else if s = ascii "on" then some .on
  else if s = ascii "select" then some .select
  else if s = ascii "imply" then some .imply
  else if s = ascii "visible" then some .visible
  else if s = ascii "range" then some .range
  else if s = ascii "help" then some .help
  else if s = ascii "---help---" then some .help
  else if s = ascii "modules" then some .modules
  else if s = ascii "transitional" then some .transitional
  else if s = ascii "optional" then some .optional
  else none

/-- Slice of a byte string: bytes of positions `[a, b)`. -/
def slice (src : Str) (a b : Nat) : Str := (src.drop a).take (b - a)

/-- `skip_spaces`: advance past spaces and tabs (fueled loop). -/
def skipSpacesF (src : Str) : Nat → Nat → Nat
  | 0, pos => pos
  | f + 1, pos =>
    match src.get? pos with
    | some b => if b == 32 || b == 9 then skipSpacesF src f (pos + 1) else pos
    | none => pos

def skipSpaces (src : Str) (pos : Nat) : Nat :=
  skipSpacesF src (src.length + 1) pos

/-- The leading loop of `next_token`: skip spaces, then a backslash-newline
line continuation, repeatedly. -/
def skipWsContF (src : Str) : Nat → Nat → Nat
  | 0, pos => pos
  | f + 1, pos =>
    let p := skipSpaces src pos
    if src.get? p == some 92 && src.get? (p + 1) == some 10 then
      skipWsContF src f (p + 2)
    else p

def skipWsCont (src : Str) (pos : Nat) : Nat :=
  skipWsContF src (src.length + 1) pos

/-- Scan to (not past) the next newline; used for `#` line comments. -/
def scanToNlF (src : Str) : Nat → Nat → Nat
  | 0, pos => pos
  | f + 1, pos =>
    match src.get? pos with
    | some b => if b == 10 then pos else scanToNlF src f (pos + 1)
    | none => pos

def scanToNl (src : Str) (pos : Nat) : Nat :=
  scanToNlF src (src.length + 1) pos

/-- `lex_string` body: collect bytes until the closing quote, handling
backslash escapes; an unterminated string stops at (and consumes) the
newline or at end of input.  Returns the value bytes and the new cursor. -/
def lexStringF (src : Str) (quote : Nat) : Nat → Nat → Str × Nat
  | 0, pos => ([], pos)
  | f + 1, pos =>
    match src.get? pos with
    | none => ([], pos)
    | some b =>
      if b == quote then ([], pos + 1)
      else if b == 92 then
        match src.get? (pos + 1) with
        | some esc =>
          let (v, p) := lexStringF src quote f (pos + 2)
          (esc :: v, p)
        | none => ([], pos + 1)
      else if b == 10 then ([], pos + 1)
      else
        let (v, p) := lexStringF src quote f (pos + 1)
        (b :: v, p)

def lexStringBody (src : Str) (quote pos : Nat) : Str × Nat :=
  lexStringF src quote (src.length + 1) pos

/-- The depth-tracking scan of `lex_macro`: starting just inside `$(` with
the given depth, consume until balanced or end of input.  Returns the final
cursor and whether the parentheses balanced. -/
def lexMacScanF (src : Str) : Nat → Nat → Nat → Nat × Bool
  | 0, pos, _ => (pos, false)
  | f + 1, pos, depth =>
    match depth with
    | 0 => (pos, true)
    | d + 1 =>
      match src.get? pos with
      | none => (pos, false)
      | some b =>
        lexMacScanF src f (pos + 1) (if b == 40 then d + 2 else if b == 41 then d else d + 1)

def lexMacScan (src : Str) (pos : Nat) : Nat × Bool :=
  lexMacScanF src (src.length + 1) pos 1

/-- `lex_ident` scan: advance while identifier-continuation bytes. -/
def lexIdentScanF (src : Str) : Nat → Nat → Nat
  | 0, pos => pos
  | f + 1, pos =>
    match src.get? pos with
    | some b => if isIdentCont b then lexIdentScanF src f (pos + 1) else pos
    | none => pos

def lexIdentScan (src : Str) (pos : Nat) : Nat :=
  lexIdentScanF src (src.length + 1) pos

/-- `next_token`: skip whitespace/continuations, then produce one token.
Unknown bytes are skipped by recursion (error recovery), which is what the
fuel bounds; the wrapper supplies fuel `src.length + 1`, enough because
every recursive step consumes one byte. -/
def nextTokenF (src : Str) : Nat → Nat → Token × Nat
  | 0, pos => (⟨.eof, ⟨pos, pos⟩⟩, pos)
  | f + 1, pos =>
    let start := skipWsCont src pos
    match src.get? start with
    | none => (⟨.eof, ⟨start, start⟩⟩, start)
    | some b =>
      if b == 10 then (⟨.newline, ⟨start, start + 1⟩⟩, start + 1)
      else if b == 35 then
        let p := scanToNl src (start + 1)
        (⟨.lineComment (slice src (start + 1) p), ⟨start, p⟩⟩, p)
      else if b == 34 || b == 39 then
        let vp := lexStringBody src b (start + 1)
        (⟨.stringLit vp.1, ⟨start, vp.2⟩⟩, vp.2)
      else if b == 36 && src.get? (start + 1) == some 40 then
        let pb := lexMacScan src (start + 2)
        let bodyEnd := if pb.2 then pb.1 - 1 else pb.1
        (⟨.macroTok (slice src (start + 2) bodyEnd), ⟨start, pb.1⟩⟩, pb.1)
      else if b == 40 then (⟨.openParen, ⟨start, start + 1⟩⟩, start + 1)
      else if b == 41 then (⟨.closeParen, ⟨start, start + 1⟩⟩, start + 1)
      else if b == 33 then
        if src.get? (start + 1) == some 61 then (⟨.notEq, ⟨start, start + 2⟩⟩, start + 2)
        else (⟨.not, ⟨start, start + 1⟩⟩, start + 1)
      else if b == 61 then (⟨.eq, ⟨start, start + 1⟩⟩, start + 1)
      else if b == 60 then
        if src.get? (start + 1) == some 61 then (⟨.lessEq, ⟨start, start + 2⟩⟩, start + 2)
        else (⟨.less, ⟨start, start + 1⟩⟩, start + 1)
      else if b == 62 then
        if src.get? (start + 1) == some 61 then (⟨.greaterEq, ⟨start, start + 2⟩⟩, start + 2)
        else (⟨.greater, ⟨start, start + 1⟩⟩, start + 1)
      else if b == 38 then
        if src.get? (start + 1) == some 38 then (⟨.and, ⟨start, start + 2⟩⟩, start + 2)
        else nextTokenF src f (start + 1)
      else if b == 124 then
        if src.get? (start + 1) == some 124 then (⟨.or, ⟨start, start + 2⟩⟩, start + 2)
        else nextTokenF src f (start + 1)
      else if isIdentStart b then
        let p := lexIdentScan src (start + 1)
        let text := slice src start p
        (⟨(keyword text).getD (.ident text), ⟨start, p⟩⟩, p)
      else nextTokenF src f (start + 1)

def nextToken (src : Str) (pos : Nat) : Token × Nat :=
  nextTokenF src (src.length + 1) pos

/-- `tokenize` loop: collect tokens until (and including) the end-of-input
token.  Fuel `src.length + 1` suffices because every non-eof token consumes
at least one byte. -/
def tokenizeF (src : Str) : Nat → Nat → List Token
  | 0, _ => []
  | f + 1, pos =>
    let tp := nextToken src pos
    if tp.1.kind = .eof then [tp.1] else tp.1 :: tokenizeF src f tp.2

def tokenize (src : Str) : List Token :=
  tokenizeF src (src.length + 1) 0

/-! ## AST (ast.rs) -/

/-- `LineIndex`: byte offset of the start of each line.  The original scans
`char_indices` for the newline character; since the newline byte never occurs
inside a multi-byte UTF-8 sequence, scanning bytes is equivalent. -/
structure LineIndex where
  lineStarts : List Nat
deriving DecidableEq, Repr

def lineStartsFrom : Str → Nat → List Nat
  | [], _ => []
  | b :: rest, i =>
    if b == 10 then (i + 1) :: lineStartsFrom rest (i + 1)
    else lineStartsFrom rest (i + 1)

/-- `LineIndex::new`. -/
def LineIndex.new (text : Str) : LineIndex :=
  ⟨0 :: lineStartsFrom text 0⟩

/-- `LineIndex::offset`: convert 0-based (line, col) to byte offset. -/
def LineIndex.offset (li : LineIndex) (line col : Nat) : Nat :=
  if line < li.lineStarts.length then li.lineStarts.getD line 0 + col
  else (li.lineStarts.getLast?).getD 0

inductive TypeKind where
  | bool | tristate | string | hex | int
deriving DecidableEq, Repr

/-- Expressions (`Expr`). -/
inductive Expr where
  | symbol (name : Str) (span : Span)
  | stringLit (s : Str) (span : Span)
  | notE (e : Expr)
  | andE (a b : Expr)
  | orE (a b : Expr)
  | eqE (a b : Expr)
  | notEqE (a b : Expr)
  | lessE (a b : Expr)
  | lessEqE (a b : Expr)
  | greaterE (a b : Expr)
  | greaterEqE (a b : Expr)
  | paren (e : Expr)
deriving DecidableEq, Repr

def Expr.span : Expr → Span
  | .symbol _ s => s
  | .stringLit _ s => s
  | .notE e => e.span
  | .paren e => e.span
  | .andE a b => a.span.merge b.span
  | .orE a b => a.span.merge b.span
  | .eqE a b => a.span.merge b.span
  | .notEqE a b => a.span.merge b.span
  | .lessE a b => a.span.merge b.span
  | .lessEqE a b => a.span.merge b.span
  | .greaterE a b => a.span.merge b.span
  | .greaterEqE a b => a.span.merge b.span

/-- `Expr::collect_symbols`: every symbol-reference leaf, in push order. -/
def Expr.collectSymbols : Expr → List (Str × Span)
  | .symbol name span => [(name, span)]
  | .stringLit _ _ => []
  | .notE e => e.collectSymbols
  | .paren e => e.collectSymbols
  | .andE a b => a.collectSymbols ++ b.collectSymbols
  | .orE a b => a.collectSymbols ++ b.collectSymbols
  | .eqE a b => a.collectSymbols ++ b.collectSymbols
  | .notEqE a b => a.collectSymbols ++ b.collectSymbols
  | .lessE a b => a.collectSymbols ++ b.collectSymbols
  | .lessEqE a b => a.collectSymbols ++ b.collectSymbols
  | .greaterE a b => a.collectSymbols ++ b.collectSymbols
  | .greaterEqE a b => a.collectSymbols ++ b.collectSymbols

structure PromptAttr where
  text : Str
  textSpan : Span
  condition : Option Expr
  span : Span
deriving DecidableEq, Repr

structure DefaultAttr where
  value : Expr
  condition : Option Expr
  span : Span
deriving DecidableEq, Repr

structure DefTypeAttr where
  kind : TypeKind
  value : Expr
  condition : Option Expr
  span : Span
deriving DecidableEq, Repr

structure DependsOnAttr where
  expr : Expr
  span : Span
deriving DecidableEq, Repr

structure SelectImplyAttr where
  symbol : Str
  symbolSpan : Span
  condition : Option Expr
  span : Span
deriving DecidableEq, Repr

structure VisibleIfAttr where
  expr : Expr
  span : Span
deriving DecidableEq, Repr

structure RangeAttr where
  low : Expr
  high : Expr
  condition : Option Expr
  span : Span
deriving DecidableEq, Repr

structure HelpAttr where
  text : Str
  span : Span
deriving DecidableEq, Repr

structure TypeAttr where
  kind : TypeKind
  prompt : Option PromptAttr
  span : Span
deriving DecidableEq, Repr

inductive Attribute where
  | type (t : TypeAttr)
  | prompt (p : PromptAttr)
  | default (d : DefaultAttr)
  | defType (d : DefTypeAttr)
  | dependsOn (d : DependsOnAttr)
  | select (s : SelectImplyAttr)
  | imply (i : SelectImplyAttr)
  | visibleIf (v : VisibleIfAttr)
  | range (r : RangeAttr)
  | help (h : HelpAttr)
  | modules (s : Span)
  | transitional (s : Span)
  | optional (s : Span)
deriving DecidableEq, Repr

/-- Shared between `config` and `menuconfig` (`ConfigEntry`). -/
structure ConfigEntry where
  name : Str
  nameSpan : Span
  attributes : List Attribute
  span : Span
deriving DecidableEq, Repr

/-- Entries.  The compound entry structs of the source (`ChoiceEntry`,
`MenuEntry`, ...) are inlined as constructor fields because their `entries`
fields make them part of the same inductive family as `Entry`. -/
inductive Entry where
  | config (c : ConfigEntry)
  | menuConfig (c : ConfigEntry)
  | choice (attributes : List Attribute) (entries : List Entry) (span : Span)
  | comment (prompt : Str) (promptSpan : Span) (attributes : List Attribute) (span : Span)
  | menu (prompt : Str) (promptSpan : Span) (attributes : List Attribute)
      (entries : List Entry) (span : Span)
  | ifE (condition : Expr) (entries : List Entry) (span : Span)
  | sourceE (path : Str) (pathSpan : Span) (span : Span)
  | mainMenu (prompt : Str) (promptSpan : Span) (span : Span)
deriving Repr

structure KconfigFile where
  entries : List Entry
deriving Repr

inductive DiagSeverity where
  | error
  | warning
deriving DecidableEq, Repr

structure ParseDiagnostic where
  message : Str
  span : Span
  severity : DiagSeverity
deriving DecidableEq, Repr

/-! ## Parser (parser.rs)

Parser state is the token cursor plus the accumulated diagnostics; the
source text and token sequence are the read-only context.  The mutually
recursive grammar functions take an explicit fuel argument (every loop
iteration and nested construct consumes tokens, so the generous wrapper
fuel in `parse` is sufficient for the recursion the source performs). -/

structure PCtx where
  source : Str
  tokens : List Token

structure PState where
  pos : Nat
  diags : List ParseDiagnostic
deriving Repr

structure ParseResult where
  file : KconfigFile
  diagnostics : List ParseDiagnostic
deriving Repr

def peek (c : PCtx) (st : PState) : TokenKind :=
  match c.tokens.get? st.pos with
  | some t => t.kind
  | none => .eof

def currentSpan (c : PCtx) (st : PState) : Span :=
  match c.tokens.get? st.pos with
  | some t => t.span
  | none => ⟨c.source.length, c.source.length⟩

def advance (st : PState) : PState :=
  { st with pos := st.pos + 1 }

def pushDiag (st : PState) (span : Span) (msg : Str) (sev : DiagSeverity) : PState :=
  { st with diags := st.diags ++ [⟨msg, span, sev⟩] }

def isNlOrComment : TokenKind → Bool
  | .newline => true
  | .lineComment _ => true
  | _ => false

/-- `skip_newlines` (fueled; each step consumes a token). -/
def skipNewlinesF (c : PCtx) : Nat → PState → PState
  | 0, st => st
  | f + 1, st =>
    if isNlOrComment (peek c st) then skipNewlinesF c f (advance st) else st

def skipNewlines (c : PCtx) (st : PState) : PState :=
  skipNewlinesF c (c.tokens.length + 1) st

/-- `skip_to_eol`: discard up to and including the next newline. -/
def skipToEolF (c : PCtx) : Nat → PState → PState
  | 0, st => st
  | f + 1, st =>
    match peek c st with
    | .newline => advance st
    | .eof => st
    | _ => skipToEolF c f (advance st)

def skipToEol (c : PCtx) (st : PState) : PState :=
  skipToEolF c (c.tokens.length + 1) st

def msgExpectedEol : Str := ascii "expected end of line"
def msgUnexpectedTopLevel : Str := ascii "unexpected token at top level"
def msgExpectedIdentifier : Str := ascii "expected identifier"
def msgExpectedString : Str := ascii "expected string"
def msgExpectedEndchoice : Str := ascii "expected `endchoice`"
def msgExpectedEndmenu : Str := ascii "expected `endmenu`"
def msgExpectedEndif : Str := ascii "expected `endif`"
def msgExpectedCloseParen : Str := ascii "expected `)`"
def msgExpectedExpression : Str := ascii "expected expression"

/-- `expect_newline`. -/
def expectNewline (c : PCtx) (st : PState) : PState :=
  match peek c st with
  | .newline => advance st
  | .lineComment _ =>
    let st := advance st
    if peek c st = .newline then advance st else st
  | .eof => st
  | _ => skipToEol c (pushDiag st (currentSpan c st) msgExpectedEol .warning)

/-- `is_symbol_like_keyword`. -/
def isSymbolLikeKeyword : TokenKind → Bool
  | .on => true
  | .modules => true
  | .optional => true
  | .transitional => true
  | .boolTk => true
  | .tristate => true
  | .hex => true
  | .int => true
  | _ => false

/-- `keyword_to_str`. -/
def keywordToStr : TokenKind → Str
  | .on => ascii "on"
  | .modules => ascii "modules"
  | .optional => ascii "optional"
  | .transitional => ascii "transitional"
  | .boolTk => ascii "bool"
  | .tristate => ascii "tristate"
  | .hex => ascii "hex"
  | .int => ascii "int"
  | _ => []

/-- `expect_ident`: an identifier, or an identifier-like keyword; otherwise
an error diagnostic and the empty name, with no token consumed. -/
def expectIdent (c : PCtx) (st : PState) : (Str × Span) × PState :=
  match peek c st with
  | .ident s => ((s, currentSpan c st), advance st)
  | tk =>
    if isSymbolLikeKeyword tk then ((keywordToStr tk, currentSpan c st), advance st)
    else (([], currentSpan c st), pushDiag st (currentSpan c st) msgExpectedIdentifier .error)

/-- `expect_string`. -/
def expectString (c : PCtx) (st : PState) : (Str × Span) × PState :=
  match peek c st with
  | .stringLit s => ((s, currentSpan c st), advance st)
  | .ident s => ((s, currentSpan c st), advance st)
  | .macroTok m => ((ascii "$(" ++ m ++ ascii ")", currentSpan c st), advance st)
  | _ => (([], currentSpan c st), pushDiag st (currentSpan c st) msgExpectedString .error)

/-- `consume_type_kind` (always advances). -/
def consumeTypeKind (c : PCtx) (st : PState) : TypeKind × PState :=
  let kind : TypeKind :=
    match peek c st with
    | .boolTk => .bool
    | .tristate => .tristate
    | .stringType => .string
    | .hex => .hex
    | .int => .int
    | _ => .bool
  (kind, advance st)

def attrSpan : Attribute → Span
  | .type t => t.span
  | .prompt p => p.span
  | .default d => d.span
  | .defType d => d.span
  | .dependsOn d => d.span
  | .select s => s.span
  | .imply i => i.span
  | .visibleIf v => v.span
  | .range r => r.span
  | .help h => h.span
  | .modules s => s
  | .transitional s => s
  | .optional s => s

/-! ### Help-text capture (`consume_help_text`) -/

/-- Rust `char::is_whitespace` restricted to the byte range that can occur
at the start of a line here (ASCII whitespace). -/
def isRustWs (b : Nat) : Bool :=
  b == 32 || b == 9 || b == 10 || b == 11 || b == 12 || b == 13

def trimStart : Str → Str
  | [] => []
  | b :: r => if isRustWs b then trimStart r else b :: r

def trimEnd (l : Str) : Str :=
  (trimStart l.reverse).reverse

/-- Split on the newline byte, keeping all pieces (`n` separators give
`n + 1` pieces). -/
def splitOnNl : Str → List Str
  | [] => [[]]
  | b :: rest =>
    if b == 10 then [] :: splitOnNl rest
    else
      match splitOnNl rest with
      | l :: ls => (b :: l) :: ls
      | [] => [[b]]

def stripCrEnd (l : Str) : Str :=
  if l.getLast? = some 13 then l.dropLast else l

/-- Rust `str::lines`: split at newlines, drop a final empty piece (a
trailing line ending is optional), strip a trailing carriage return. -/
def rustLines (s : Str) : List Str :=
  if s.isEmpty then []
  else
    let ps := splitOnNl s
    let ps := if ps.getLast? = some [] then ps.dropLast else ps
    ps.map stripCrEnd

/-- The line-capture loop of `consume_help_text`: returns the captured
lines (a blank line is captured as the empty line), the number of raw bytes
consumed, and the base indent.  The first non-blank line fixes the base
indent; a later non-blank line indented less ends the block. -/
def helpLoop : List Str → Option Nat → List Str × Nat × Option Nat
  | [], base => ([], 0, base)
  | l :: rest, base =>
    let trimmed := trimStart l
    if trimmed.isEmpty then
      let r := helpLoop rest base
      ([] :: r.1, l.length + 1 + r.2.1, r.2.2)
    else
      let indent := l.length - trimmed.length
      match base with
      | none =>
        let r := helpLoop rest (some indent)
        (l :: r.1, l.length + 1 + r.2.1, r.2.2)
      | some bi =>
        if indent < bi then ([], 0, some bi)
        else
          let r := helpLoop rest (some bi)
          (l :: r.1, l.length + 1 + r.2.1, r.2.2)

/-- Strip the base indent from each captured line (`lines.iter().map(...)`
in the source): a line longer than the base indent loses exactly that many
leading bytes, a shorter line is fully trimmed at the start. -/
def stripLines (bi : Nat) (ls : List Str) : List Str :=
  ls.map fun l => if bi < l.length then l.drop bi else trimStart l

/-- `Vec::join("\n")`. -/
def joinNl : List Str → Str
  | [] => []
  | [l] => l
  | l :: ls => l ++ 10 :: joinNl ls

/-- Index of the last newline byte strictly before `stop`. -/
def lastNlBefore (src : Str) (stop : Nat) : Option Nat :=
  let t := src.take stop
  (t.reverse.findIdx? (· == 10)).map fun j => t.length - 1 - j

/-- Advance the token cursor past every token starting before `endOffset`. -/
def advTokF (c : PCtx) (endOffset : Nat) : Nat → PState → PState
  | 0, st => st
  | f + 1, st =>
    match c.tokens.get? st.pos with
    | some t => if t.span.start < endOffset then advTokF c endOffset f (advance st) else st
    | none => st

def advTok (c : PCtx) (endOffset : Nat) (st : PState) : PState :=
  advTokF c endOffset (c.tokens.length + 1) st

/-- `consume_help_text`: indentation-sensitive capture on the raw text,
then advance the token cursor past the consumed bytes. -/
def consumeHelpText (c : PCtx) (st : PState) : Str × PState :=
  let tokenOffset := (currentSpan c st).start
  let rawStart := ((lastNlBefore c.source tokenOffset).map (· + 1)).getD tokenOffset
  let remaining := c.source.drop rawStart
  let (captured, consumed, base) := helpLoop (rustLines remaining) none
  let endOffset := rawStart + consumed
  let st := advTok c endOffset st
  let bi := base.getD 0
  (trimEnd (joinNl (stripLines bi captured)), st)

/-- `parse_help` (non-recursive). -/
def parseHelp (c : PCtx) (st : PState) : Attribute × PState :=
  let start := currentSpan c st
  let st := advance st
  let st := skipToEol c st
  let (text, st) := consumeHelpText c st
  let endOffset := start.stop + text.length
  (.help ⟨text, start.merge ⟨start.start, endOffset⟩⟩, st)

/-- `parse_source` (non-recursive). -/
def parseSource (c : PCtx) (st : PState) : Entry × PState :=
  let start := currentSpan c st
  let st := advance st
  let ((path, pathSpan), st) := expectString c st
  let st := expectNewline c st
  (.sourceE path pathSpan (start.merge pathSpan), st)

/-- `parse_mainmenu` (non-recursive). -/
def parseMainmenu (c : PCtx) (st : PState) : Entry × PState :=
  let start := currentSpan c st
  let st := advance st
  let ((prompt, promptSpan), st) := expectString c st
  let st := expectNewline c st
  (.mainMenu prompt promptSpan (start.merge promptSpan), st)

mutual

/-- `parse_entries`: skip newlines and dispatch until a terminator or eof. -/
def parseEntriesF (c : PCtx) : Nat → List TokenKind → PState → List Entry × PState
  | 0, _, st => ([], st)
  | f + 1, terms, st =>
    let st := skipNewlines c st
    if peek c st = .eof then ([], st)
    else if terms.contains (peek c st) then ([], st)
    else
      let (eo, st) := parseEntryF c f st
      let (rest, st) := parseEntriesF c f terms st
      (match eo with | some e => e :: rest | none => rest, st)

/-- `parse_entry`: dispatch on the entry keyword; anything else is an error
recovered by discarding to the end of the line. -/
def parseEntryF (c : PCtx) : Nat → PState → Option Entry × PState
  | 0, st => (none, st)
  | f + 1, st =>
    match peek c st with
    | .config => let (e, st) := parseConfigF c f false st; (some e, st)
    | .menuConfig => let (e, st) := parseConfigF c f true st; (some e, st)
    | .choice => let (e, st) := parseChoiceF c f st; (some e, st)
    | .commentKw => let (e, st) := parseCommentF c f st; (some e, st)
    | .menu => let (e, st) := parseMenuF c f st; (some e, st)
    | .ifTok => let (e, st) := parseIfF c f st; (some e, st)
    | .sourceKw => let (e, st) := parseSource c st; (some e, st)
    | .mainMenu => let (e, st) := parseMainmenu c st; (some e, st)
    | _ =>
      let span := currentSpan c st
      (none, skipToEol c (pushDiag st span msgUnexpectedTopLevel .error))

/-- `parse_config` (also `menuconfig`). -/
def parseConfigF (c : PCtx) : Nat → Bool → PState → Entry × PState
  | 0, _, st => (.config ⟨[], ⟨0, 0⟩, [], ⟨0, 0⟩⟩, st)
  | f + 1, isMenuconfig, st =>
    let startSpan := currentSpan c st
    let st := advance st
    let ((name, nameSpan), st) := expectIdent c st
    let st := expectNewline c st
    let (attributes, st) := parseConfigAttributesF c f st
    let span := startSpan.merge (((attributes.getLast?).map attrSpan).getD nameSpan)
    let entry : ConfigEntry := ⟨name, nameSpan, attributes, span⟩
    (if isMenuconfig then .menuConfig entry else .config entry, st)

/-- `parse_config_attributes` loop. -/
def parseConfigAttributesF (c : PCtx) : Nat → PState → List Attribute × PState
  | 0, st => ([], st)
  | f + 1, st =>
    let st := skipNewlines c st
    match peek c st with
    | .boolTk => parseAttrsStepF c f st
    | .tristate => parseAttrsStepF c f st
    | .stringType => parseAttrsStepF c f st
    | .hex => parseAttrsStepF c f st
    | .int => parseAttrsStepF c f st
    | .prompt =>
      let (a, st) := parsePromptAttrF c f st
      let (rest, st) := parseConfigAttributesF c f st
      (a :: rest, st)
    | .default =>
      let (a, st) := parseDefaultAttrF c f st
      let (rest, st) := parseConfigAttributesF c f st
      (a :: rest, st)
    | .defBool =>
      let (a, st) := parseDefTypeAttrF c f .bool st
      let (rest, st) := parseConfigAttributesF c f st
      (a :: rest, st)
    | .defTristate =>
      let (a, st) := parseDefTypeAttrF c f .tristate st
      let (rest, st) := parseConfigAttributesF c f st
      (a :: rest, st)
    | .depends =>
      let (a, st) := parseDependsOnF c f st
      let (rest, st) := parseConfigAttributesF c f st
      (a :: rest, st)
    | .select =>
      let (a, st) := parseSelectImplyF c f true st
      let (rest, st) := parseConfigAttributesF c f st
      (a :: rest, st)
    | .imply =>
      let (a, st) := parseSelectImplyF c f false st
      let (rest, st) := parseConfigAttributesF c f st
      (a :: rest, st)
    | .visible =>
      let (a, st) := parseVisibleIfF c f st
      let (rest, st) := parseConfigAttributesF c f st
      (a :: rest, st)
    | .range =>
      let (a, st) := parseRangeF c f st
      let (rest, st) := parseConfigAttributesF c f st
      (a :: rest, st)
    | .help =>
      let (a, st) := parseHelp c st
      let (rest, st) := parseConfigAttributesF c f st
      (a :: rest, st)
    | .modules =>
      let span := currentSpan c st
      let st := expectNewline c (advance st)
      let (rest, st) := parseConfigAttributesF c f st
      (.modules span :: rest, st)
    | .transitional =>
      let span := currentSpan c st
      let st := expectNewline c (advance st)
      let (rest, st) := parseConfigAttributesF c f st
      (.transitional span :: rest, st)
    | .optional =>
      let span := currentSpan c st
      let st := expectNewline c (advance st)
      let (rest, st) := parseConfigAttributesF c f st
      (.optional span :: rest, st)
    | _ => ([], st)

/-- The shared type-attribute step of the attribute loop. -/
def parseAttrsStepF (c : PCtx) : Nat → PState → List Attribute × PState
  | 0, st => ([], st)
  | f + 1, st =>
    let (a, st) := parseTypeAttrF c f st
    let (rest, st) := parseConfigAttributesF c f st
    (a :: rest, st)

/-- `parse_type_attr`. -/
def parseTypeAttrF (c : PCtx) : Nat → PState → Attribute × PState
  | 0, st => (.type ⟨.bool, none, ⟨0, 0⟩⟩, st)
  | f + 1, st =>
    let start := currentSpan c st
    let (kind, st) := consumeTypeKind c st
    let (promptO, st) := tryParseInlinePromptF c f st
    let span := start.merge ((promptO.map (·.span)).getD start)
    let st := expectNewline c st
    (.type ⟨kind, promptO, span⟩, st)

/-- `parse_prompt_attr`. -/
def parsePromptAttrF (c : PCtx) : Nat → PState → Attribute × PState
  | 0, st => (.prompt ⟨[], ⟨0, 0⟩, none, ⟨0, 0⟩⟩, st)
  | f + 1, st =>
    let start := currentSpan c st
    let st := advance st
    let (p, st) := parsePromptValueF c f start st
    let st := expectNewline c st
    (.prompt p, st)

/-- `parse_default_attr`. -/
def parseDefaultAttrF (c : PCtx) : Nat → PState → Attribute × PState
  | 0, st => (.default ⟨.symbol [] ⟨0, 0⟩, none, ⟨0, 0⟩⟩, st)
  | f + 1, st =>
    let start := currentSpan c st
    let st := advance st
    let (value, st) := parseExprF c f st
    let (condition, st) := tryParseIfConditionF c f st
    let span := start.merge ((condition.map Expr.span).getD value.span)
    let st := expectNewline c st
    (.default ⟨value, condition, span⟩, st)

/-- `parse_def_type_attr`. -/
def parseDefTypeAttrF (c : PCtx) : Nat → TypeKind → PState → Attribute × PState
  | 0, _, st => (.defType ⟨.bool, .symbol [] ⟨0, 0⟩, none, ⟨0, 0⟩⟩, st)
  | f + 1, kind, st =>
    let start := currentSpan c st
    let st := advance st
    let (value, st) := parseExprF c f st
    let (condition, st) := tryParseIfConditionF c f st
    let span := start.merge ((condition.map Expr.span).getD value.span)
    let st := expectNewline c st
    (.defType ⟨kind, value, condition, span⟩, st)

/-- `parse_depends_on`. -/
def parseDependsOnF (c : PCtx) : Nat → PState → Attribute × PState
  | 0, st => (.dependsOn ⟨.symbol [] ⟨0, 0⟩, ⟨0, 0⟩⟩, st)
  | f + 1, st =>
    let start := currentSpan c st
    let st := advance st
    let st := if peek c st = .on then advance st else st
    let (expr, st) := parseExprF c f st
    let span := start.merge expr.span
    let st := expectNewline c st
    (.dependsOn ⟨expr, span⟩, st)

/-- `parse_select_imply`. -/
def parseSelectImplyF (c : PCtx) : Nat → Bool → PState → Attribute × PState
  | 0, _, st => (.select ⟨[], ⟨0, 0⟩, none, ⟨0, 0⟩⟩, st)
  | f + 1, isSelect, st =>
    let start := currentSpan c st
    let st := advance st
    let ((symbol, symbolSpan), st) := expectIdent c st
    let (condition, st) := tryParseIfConditionF c f st
    let span := start.merge ((condition.map Expr.span).getD symbolSpan)
    let st := expectNewline c st
    let attr : SelectImplyAttr := ⟨symbol, symbolSpan, condition, span⟩
    (if isSelect then .select attr else .imply attr, st)

/-- `parse_visible_if`. -/
def parseVisibleIfF (c : PCtx) : Nat → PState → Attribute × PState
  | 0, st => (.visibleIf ⟨.symbol [] ⟨0, 0⟩, ⟨0, 0⟩⟩, st)
  | f + 1, st =>
    let start := currentSpan c st
    let st := advance st
    let st := if peek c st = .ifTok then advance st else st
    let (expr, st) := parseExprF c f st
    let span := start.merge expr.span
    let st := expectNewline c st
    (.visibleIf ⟨expr, span⟩, st)

/-- `parse_range`. -/
def parseRangeF (c : PCtx) : Nat → PState → Attribute × PState
  | 0, st => (.range ⟨.symbol [] ⟨0, 0⟩, .symbol [] ⟨0, 0⟩, none, ⟨0, 0⟩⟩, st)
  | f + 1, st =>
    let start := currentSpan c st
    let st := advance st
    let (low, st) := parsePrimaryExprF c f st
    let (high, st) := parsePrimaryExprF c f st
    let (condition, st) := tryParseIfConditionF c f st
    let span := start.merge ((condition.map Expr.span).getD high.span)
    let st := expectNewline c st
    (.range ⟨low, high, condition, span⟩, st)

/-- `parse_choice`. -/
def parseChoiceF (c : PCtx) : Nat → PState → Entry × PState
  | 0, st => (.choice [] [] ⟨0, 0⟩, st)
  | f + 1, st =>
    let start := currentSpan c st
    let st := advance st
    let st := expectNewline c st
    let (attributes, st) := parseChoiceAttrsF c f st
    let (entries, st) := parseEntriesF c f [.endChoice] st
    let st := skipNewlines c st
    let endSpan := currentSpan c st
    let st :=
      if peek c st = .endChoice then expectNewline c (advance st)
      else pushDiag st endSpan msgExpectedEndchoice .error
    (.choice attributes entries (start.merge endSpan), st)

/-- The attribute loop inside `parse_choice`. -/
def parseChoiceAttrsF (c : PCtx) : Nat → PState → List Attribute × PState
  | 0, st => ([], st)
  | f + 1, st =>
    let st := skipNewlines c st
    match peek c st with
    | .prompt =>
      let (a, st) := parsePromptAttrF c f st
      let (rest, st) := parseChoiceAttrsF c f st
      (a :: rest, st)
    | .default =>
      let (a, st) := parseDefaultAttrF c f st
      let (rest, st) := parseChoiceAttrsF c f st
      (a :: rest, st)
    | .depends =>
      let (a, st) := parseDependsOnF c f st
      let (rest, st) := parseChoiceAttrsF c f st
      (a :: rest, st)
    | .help =>
      let (a, st) := parseHelp c st
      let (rest, st) := parseChoiceAttrsF c f st
      (a :: rest, st)
    | .boolTk =>
      let (a, st) := parseTypeAttrF c f st
      let (rest, st) := parseChoiceAttrsF c f st
      (a :: rest, st)
    | .tristate =>
      let (a, st) := parseTypeAttrF c f st
      let (rest, st) := parseChoiceAttrsF c f st
      (a :: rest, st)
    | .optional =>
      let span := currentSpan c st
      let st := expectNewline c (advance st)
      let (rest, st) := parseChoiceAttrsF c f st
      (.optional span :: rest, st)
    | _ => ([], st)

/-- `parse_comment`. -/
def parseCommentF (c : PCtx) : Nat → PState → Entry × PState
  | 0, st => (.comment [] ⟨0, 0⟩ [] ⟨0, 0⟩, st)
  | f + 1, st =>
    let start := currentSpan c st
    let st := advance st
    let ((prompt, promptSpan), st) := expectString c st
    let st := expectNewline c st
    let (attributes, st) := parseCommentMenuAttrsF c f st
    let span := start.merge (((attributes.getLast?).map attrSpan).getD promptSpan)
    (.comment prompt promptSpan attributes span, st)

/-- `parse_menu`. -/
def parseMenuF (c : PCtx) : Nat → PState → Entry × PState
  | 0, st => (.menu [] ⟨0, 0⟩ [] [] ⟨0, 0⟩, st)
  | f + 1, st =>
    let start := currentSpan c st
    let st := advance st
    let ((prompt, promptSpan), st) := expectString c st
    let st := expectNewline c st
    let (attributes, st) := parseCommentMenuAttrsF c f st
    let (entries, st) := parseEntriesF c f [.endMenu] st
    let st := skipNewlines c st
    let endSpan := currentSpan c st
    let st :=
      if peek c st = .endMenu then expectNewline c (advance st)
      else pushDiag st endSpan msgExpectedEndmenu .error
    (.menu prompt promptSpan attributes entries (start.merge endSpan), st)

/-- `parse_comment_menu_attrs` loop. -/
def parseCommentMenuAttrsF (c : PCtx) : Nat → PState → List Attribute × PState
  | 0, st => ([], st)
  | f + 1, st =>
    let st := skipNewlines c st
    match peek c st with
    | .depends =>
      let (a, st) := parseDependsOnF c f st
      let (rest, st) := parseCommentMenuAttrsF c f st
      (a :: rest, st)
    | .visible =>
      let (a, st) := parseVisibleIfF c f st
      let (rest, st) := parseCommentMenuAttrsF c f st
      (a :: rest, st)
    | _ => ([], st)

/-- `parse_if`. -/
def parseIfF (c : PCtx) : Nat → PState → Entry × PState
  | 0, st => (.ifE (.symbol [] ⟨0, 0⟩) [] ⟨0, 0⟩, st)
  | f + 1, st =>
    let start := currentSpan c st
    let st := advance st
    let (condition, st) := parseExprF c f st
    let st := expectNewline c st
    let (entries, st) := parseEntriesF c f [.endIf] st
    let st := skipNewlines c st
    let endSpan := currentSpan c st
    let st :=
      if peek c st = .endIf then expectNewline c (advance st)
      else pushDiag st endSpan msgExpectedEndif .error
    (.ifE condition entries (start.merge endSpan), st)

/-- `parse_expr`. -/
def parseExprF (c : PCtx) : Nat → PState → Expr × PState
  | 0, st => (.symbol [] ⟨0, 0⟩, st)
  | f + 1, st => parseOrExprF c f st

/-- `parse_or_expr` (left-associative loop). -/
def parseOrExprF (c : PCtx) : Nat → PState → Expr × PState
  | 0, st => (.symbol [] ⟨0, 0⟩, st)
  | f + 1, st =>
    let (left, st) := parseAndExprF c f st
    parseOrRestF c f left st

def parseOrRestF (c : PCtx) : Nat → Expr → PState → Expr × PState
  | 0, left, st => (left, st)
  | f + 1, left, st =>
    if peek c st = .or then
      let st := advance st
      let (right, st) := parseAndExprF c f st
      parseOrRestF c f (.orE left right) st
    else (left, st)

/-- `parse_and_expr` (left-associative loop). -/
def parseAndExprF (c : PCtx) : Nat → PState → Expr × PState
  | 0, st => (.symbol [] ⟨0, 0⟩, st)
  | f + 1, st =>
    let (left, st) := parseComparisonExprF c f st
    parseAndRestF c f left st

def parseAndRestF (c : PCtx) : Nat → Expr → PState → Expr × PState
  | 0, left, st => (left, st)
  | f + 1, left, st =>
    if peek c st = .and then
      let st := advance st
      let (right, st) := parseComparisonExprF c f st
      parseAndRestF c f (.andE left right) st
    else (left, st)

/-- `parse_comparison_expr` (non-chaining). -/
def parseComparisonExprF (c : PCtx) : Nat → PState → Expr × PState
  | 0, st => (.symbol [] ⟨0, 0⟩, st)
  | f + 1, st =>
    let (left, st) := parsePrimaryExprF c f st
    match peek c st with
    | .eq =>
      let st := advance st
      let (right, st) := parsePrimaryExprF c f st
      (.eqE left right, st)
    | .notEq =>
      let st := advance st
      let (right, st) := parsePrimaryExprF c f st
      (.notEqE left right, st)
    | .less =>
      let st := advance st
      let (right, st) := parsePrimaryExprF c f st
      (.lessE left right, st)
    | .lessEq =>
      let st := advance st
      let (right, st) := parsePrimaryExprF c f st
      (.lessEqE left right, st)
    | .greater =>
      let st := advance st
      let (right, st) := parsePrimaryExprF c f st
      (.greaterE left right, st)
    | .greaterEq =>
      let st := advance st
      let (right, st) := parsePrimaryExprF c f st
      (.greaterEqE left right, st)
    | _ => (left, st)

/-- `parse_primary_expr`. -/
def parsePrimaryExprF (c : PCtx) : Nat → PState → Expr × PState
  | 0, st => (.symbol [] ⟨0, 0⟩, st)
  | f + 1, st =>
    match peek c st with
    | .not =>
      let st := advance st
      let (inner, st) := parsePrimaryExprF c f st
      (.notE inner, st)
    | .openParen =>
      let st := advance st
      let (inner, st) := parseExprF c f st
      let st :=
        if peek c st = .closeParen then advance st
        else pushDiag st (currentSpan c st) msgExpectedCloseParen .error
      (.paren inner, st)
    | .stringLit s => (.stringLit s (currentSpan c st), advance st)
    | .ident s => (.symbol s (currentSpan c st), advance st)
    | .macroTok m => (.symbol (ascii "$(" ++ m ++ ascii ")") (currentSpan c st), advance st)
    | tk =>
      if isSymbolLikeKeyword tk then (.symbol (keywordToStr tk) (currentSpan c st), advance st)
      else
        let span := currentSpan c st
        (.symbol [] span, pushDiag st span msgExpectedExpression .error)

/-- `try_parse_inline_prompt`. -/
def tryParseInlinePromptF (c : PCtx) : Nat → PState → Option PromptAttr × PState
  | 0, st => (none, st)
  | f + 1, st =>
    match peek c st with
    | .stringLit _ =>
      let start := currentSpan c st
      let (p, st) := parsePromptValueF c f start st
      (some p, st)
    | _ => (none, st)

/-- `parse_prompt_value`. -/
def parsePromptValueF (c : PCtx) : Nat → Span → PState → PromptAttr × PState
  | 0, _, st => (⟨[], ⟨0, 0⟩, none, ⟨0, 0⟩⟩, st)
  | f + 1, start, st =>
    let ((text, textSpan), st) := expectString c st
    let (condition, st) := tryParseIfConditionF c f st
    let span := start.merge ((condition.map Expr.span).getD textSpan)
    (⟨text, textSpan, condition, span⟩, st)

/-- `try_parse_if_condition`. -/
def tryParseIfConditionF (c : PCtx) : Nat → PState → Option Expr × PState
  | 0, st => (none, st)
  | f + 1, st =>
    if peek c st = .ifTok then
      let (e, st) := parseExprF c f (advance st)
      (some e, st)
    else (none, st)

end

/-- Fuel for the parser: the grammar consumes at least one token for each
constant number of nested calls, so this generous linear bound suffices. -/
def parseFuel (tokens : List Token) : Nat := 32 * (tokens.length + 2)

/-- `parse`: run the entry parser over the whole token sequence. -/
def parse (source : Str) (tokens : List Token) : ParseResult :=
  let c : PCtx := ⟨source, tokens⟩
  let (entries, st) := parseEntriesF c (parseFuel tokens) [] ⟨0, []⟩
  ⟨⟨entries⟩, st.diags⟩

/-! ## World index (analysis.rs)

File paths are modelled as byte strings.  The two `HashMap`s are modelled
as association lists; the operations used by the source (`entry().or_default().push`,
`retain`, `remove`/`insert`, `keys`) are modelled by the corresponding list
operations, and hash-map well-formedness (distinct keys) is an explicit
hypothesis where a claim needs it. -/

inductive DefKind where
  | config | menuConfig | choice
deriving DecidableEq, Repr

structure SymbolDef where
  name : Str
  kind : DefKind
  nameSpan : Span
  typeKind : Option TypeKind
  prompt : Option Str
  help : Option Str
  file : Str
deriving DecidableEq, Repr

inductive RefKind where
  | dependsOn | select | imply | default | range | visibleIf | ifCondition
deriving DecidableEq, Repr

structure SymbolRef where
  name : Str
  kind : RefKind
  span : Span
  file : Str
deriving DecidableEq, Repr

structure FileAnalysis where
  file : KconfigFile
  lineIndex : LineIndex
  source : Str
  diagnostics : List ParseDiagnostic

structure WorldIndex where
  definitions : List (Str × List SymbolDef)
  references : List (Str × List SymbolRef)
  allSymbols : List Str
  files : List (Str × FileAnalysis)

def WorldIndex.new : WorldIndex := ⟨[], [], [], []⟩

/-- `is_tristate_literal`. -/
def isTristateLiteral (s : Str) : Bool :=
  s == ascii "y" || s == ascii "n" || s == ascii "m"

/-- `collect_expr_refs`: every symbol leaf of the expression becomes a
reference of the given kind, except tristate literals and empty names. -/
def collectExprRefs (expr : Expr) (kind : RefKind) (file : Str) : List SymbolRef :=
  (expr.collectSymbols.filter fun (name, _) => !(isTristateLiteral name || name.isEmpty)).map
    fun (name, span) => ⟨name, kind, span, file⟩

/-- `collect_attr_refs`. -/
def collectAttrRefs (attr : Attribute) (file : Str) : List SymbolRef :=
  match attr with
  | .dependsOn d => collectExprRefs d.expr .dependsOn file
  | .select s =>
    ⟨s.symbol, .select, s.symbolSpan, file⟩ ::
      (match s.condition with
       | some cond => collectExprRefs cond .select file
       | none => [])
  | .imply i =>
    ⟨i.symbol, .imply, i.symbolSpan, file⟩ ::
      (match i.condition with
       | some cond => collectExprRefs cond .imply file
       | none => [])
  | .default d =>
    collectExprRefs d.value .default file ++
      (match d.condition with
       | some cond => collectExprRefs cond .default file
       | none => [])
  | .defType dt =>
    collectExprRefs dt.value .default file ++
      (match dt.condition with
       | some cond => collectExprRefs cond .default file
       | none => [])
  | .visibleIf v => collectExprRefs v.expr .visibleIf file
  | .range r =>
    collectExprRefs r.low .range file ++ collectExprRefs r.high .range file ++
      (match r.condition with
       | some cond => collectExprRefs cond .range file
       | none => [])
  | .type t =>
    match t.prompt with
    | some p =>
      (match p.condition with
       | some cond => collectExprRefs cond .dependsOn file
       | none => [])
    | none => []
  | .prompt p =>
    (match p.condition with
     | some cond => collectExprRefs cond .dependsOn file
     | none => [])
  | .help _ => []
  | .modules _ => []
  | .transitional _ => []
  | .optional _ => []

/-- The `Entry::Config`/`Entry::MenuConfig` case of `collect_entries`:
fold the attributes for type/prompt/help, collect the attribute references,
and push one `SymbolDef`. -/
def collectConfig (c : ConfigEntry) (kind : DefKind) (file : Str) : List SymbolDef × List SymbolRef :=
  let info := c.attributes.foldl
    (fun (acc : Option TypeKind × Option Str × Option Str) attr =>
      let (typeKind, prompt, help) := acc
      match attr with
      | .type t =>
        (some t.kind, (match t.prompt with | some p => some p.text | none => prompt), help)
      | .defType dt => (some dt.kind, prompt, help)
      | .prompt p => (typeKind, some p.text, help)
      | .help h => (typeKind, prompt, some h.text)
      | _ => acc)
    (none, none, none)
  let refs := c.attributes.flatMap (collectAttrRefs · file)
  ([⟨c.name, kind, c.nameSpan, info.1, info.2.1, info.2.2, file⟩], refs)

mutual

/-- `collect_entries` body for one entry.  Fuel models the recursion into
nested `choice`/`menu`/`if` blocks. -/
def collectEntryF : Nat → Entry → Str → List SymbolDef × List SymbolRef
  | 0, _, _ => ([], [])
  | f + 1, e, file =>
    match e with
    | .config c => collectConfig c .config file
    | .menuConfig c => collectConfig c .menuConfig file
    | .choice attributes entries _ =>
      let refs0 := attributes.flatMap (collectAttrRefs · file)
      let dr := collectEntriesF f entries file
      (dr.1, refs0 ++ dr.2)
    | .comment _ _ attributes _ =>
      ([], attributes.flatMap (collectAttrRefs · file))
    | .menu _ _ attributes entries _ =>
      let refs0 := attributes.flatMap (collectAttrRefs · file)
      let dr := collectEntriesF f entries file
      (dr.1, refs0 ++ dr.2)
    | .ifE condition entries _ =>
      let refs0 := collectExprRefs condition .ifCondition file
      let dr := collectEntriesF f entries file
      (dr.1, refs0 ++ dr.2)
    | .sourceE _ _ _ => ([], [])
    | .mainMenu _ _ _ => ([], [])

/-- `collect_entries` loop over a list of entries. -/
def collectEntriesF : Nat → List Entry → Str → List SymbolDef × List SymbolRef
  | 0, _, _ => ([], [])
  | _ + 1, [], _ => ([], [])
  | f + 1, e :: rest, file =>
    let a := collectEntryF f e file
    let b := collectEntriesF f rest file
    (a.1 ++ b.1, a.2 ++ b.2)

end

/-- `HashMap::entry(name).or_default().push(x)` on the association-list
model: append to the existing bucket, or add a new key.  Generic in the
bucket element type; instantiated for definitions and references below. -/
def pushBucket {α : Type} (key : α → Str) (m : List (Str × List α)) (x : α) :
    List (Str × List α) :=
  if m.any (fun kv => kv.1 = key x) then
    m.map fun kv => if kv.1 = key x then (kv.1, kv.2 ++ [x]) else kv
  else m ++ [(key x, [x])]

def pushDef (m : List (Str × List SymbolDef)) (d : SymbolDef) : List (Str × List SymbolDef) :=
  pushBucket SymbolDef.name m d

def pushRef (m : List (Str × List SymbolRef)) (r : SymbolRef) : List (Str × List SymbolRef) :=
  pushBucket SymbolRef.name m r

/-- `HashMap::insert` on the file map: replace the bucket of an existing
key, or add a new key. -/
def insertFile (fs : List (Str × FileAnalysis)) (p : Str) (fa : FileAnalysis) :
    List (Str × FileAnalysis) :=
  if fs.any (fun kv => kv.1 = p) then
    fs.map fun kv => if kv.1 = p then (p, fa) else kv
  else fs ++ [(p, fa)]

/-- Lookup in the file map (`HashMap::get`). -/
def filesLookup (fs : List (Str × FileAnalysis)) (p : Str) : Option FileAnalysis :=
  (fs.find? (fun kv => kv.1 = p)).map (·.2)

/-- `WorldIndex::analyze_file`. -/
def WorldIndex.analyzeFile (w : WorldIndex) (path source : Str) : WorldIndex :=
  let tokens := tokenize source
  let result := parse source tokens
  let lineIndex := LineIndex.new source
  let (defs, refs) := collectEntriesF (2 * tokens.length + 2) result.file.entries path
  let definitions := defs.foldl pushDef w.definitions
  let allSymbols := defs.foldl
    (fun acc d => if acc.contains d.name then acc else acc ++ [d.name]) w.allSymbols
  let references := refs.foldl pushRef w.references
  { definitions, references, allSymbols,
    files := insertFile w.files path ⟨result.file, lineIndex, source, result.diagnostics⟩ }

/-- The `retain` pass of `remove_file`: drop the removed file's entries
from every bucket, then drop empty buckets.  Generic in the bucket element
type; instantiated for definitions and references below. -/
def removeBucketsOf {α : Type} (fl : α → Str) (p : Str) (m : List (Str × List α)) :
    List (Str × List α) :=
  (m.map fun kv => (kv.1, kv.2.filter (fun d => fl d ≠ p))).filter fun kv => !kv.2.isEmpty

def removeDefsOf (p : Str) (m : List (Str × List SymbolDef)) : List (Str × List SymbolDef) :=
  removeBucketsOf SymbolDef.file p m

def removeRefsOf (p : Str) (m : List (Str × List SymbolRef)) : List (Str × List SymbolRef) :=
  removeBucketsOf SymbolRef.file p m

/-- `WorldIndex::remove_file`. -/
def WorldIndex.removeFile (w : WorldIndex) (path : Str) : WorldIndex :=
  let definitions := removeDefsOf path w.definitions
  { definitions
    references := removeRefsOf path w.references
    allSymbols := definitions.map (·.1)
    files := w.files.filter fun kv => kv.1 ≠ path }

/-- `WorldIndex::reanalyze_file` = remove then analyze. -/
def WorldIndex.reanalyzeFile (w : WorldIndex) (path source : Str) : WorldIndex :=
  (w.removeFile path).analyzeFile path source

/-- `WorldIndex::get_definitions` (empty for unknown names). -/
def WorldIndex.getDefinitions (w : WorldIndex) (name : Str) : List SymbolDef :=
  ((w.definitions.find? (fun kv => kv.1 = name)).map (·.2)).getD []

/-- `WorldIndex::get_references`. -/
def WorldIndex.getReferences (w : WorldIndex) (name : Str) : List SymbolRef :=
  ((w.references.find? (fun kv => kv.1 = name)).map (·.2)).getD []

/-! ## Lexer lemmas: cursor monotonicity and bounds -/

theorem skipSpacesF_ge (src : Str) : ∀ f pos, pos ≤ skipSpacesF src f pos := by
  intro f
  induction f with
  | zero => intro pos; simp [skipSpacesF]
  | succ f ih =>
    intro pos
    simp only [skipSpacesF]
    cases h : src.get? pos with
    | none => simp
    | some b =>
      by_cases hb : (b == 32 || b == 9) = true
      · simpa [hb] using le_trans (by omega) (ih (pos + 1))
      · simp [hb]

theorem skipSpacesF_le (src : Str) : ∀ f pos, pos ≤ src.length → skipSpacesF src f pos ≤ src.length := by
  intro f
  induction f with
  | zero => intro pos h; simpa [skipSpacesF] using h
  | succ f ih =>
    intro pos h
    simp only [skipSpacesF]
    cases hg : src.get? pos with
    | none => simpa using h
    | some b =>
      have hlt : pos < src.length := (List.get?_eq_some.mp hg).1
      by_cases hb : (b == 32 || b == 9) = true
      · simpa [hb] using ih (pos + 1) (by omega)
      · simpa [hb] using h

theorem skipSpaces_ge (src : Str) (pos : Nat) : pos ≤ skipSpaces src pos :=
  skipSpacesF_ge src _ pos

theorem skipSpaces_le (src : Str) (pos : Nat) (h : pos ≤ src.length) :
    skipSpaces src pos ≤ src.length :=
  skipSpacesF_le src _ pos h

theorem skipWsContF_ge (src : Str) : ∀ f pos, pos ≤ skipWsContF src f pos := by
  intro f
  induction f with
  | zero => intro pos; simp [skipWsContF]
  | succ f ih =>
    intro pos
    simp only [skipWsContF]
    split
    · exact le_trans (le_trans (skipSpaces_ge src pos) (by omega)) (ih _)
    · exact skipSpaces_ge src pos

theorem skipWsContF_le (src : Str) :
    ∀ f pos, pos ≤ src.length → skipWsContF src f pos ≤ src.length := by
  intro f
  induction f with
  | zero => intro pos h; simpa [skipWsContF] using h
  | succ f ih =>
    intro pos h
    simp only [skipWsContF]
    split
    next hc =>
      have h1 : src.get? (skipSpaces src pos + 1) = some 10 := by
        simp only [Bool.and_eq_true, beq_iff_eq] at hc
        exact hc.2
      have : skipSpaces src pos + 1 < src.length := (List.get?_eq_some.mp h1).1
      exact ih _ (by omega)
    next => exact skipSpaces_le src pos h

theorem skipWsCont_ge (src : Str) (pos : Nat) : pos ≤ skipWsCont src pos :=
  skipWsContF_ge src _ pos

theorem skipWsCont_le (src : Str) (pos : Nat) (h : pos ≤ src.length) :
    skipWsCont src pos ≤ src.length :=
  skipWsContF_le src _ pos h

theorem scanToNlF_ge (src : Str) : ∀ f pos, pos ≤ scanToNlF src f pos := by
  intro f
  induction f with
  | zero => intro pos; simp [scanToNlF]
  | succ f ih =>
    intro pos
    simp only [scanToNlF]
    cases h : src.get? pos with
    | none => simp
    | some b =>
      by_cases hb : (b == 10) = true
      · simp [hb]
      · simpa [hb] using le_trans (by omega) (ih (pos + 1))

theorem scanToNlF_le (src : Str) : ∀ f pos, pos ≤ src.length → scanToNlF src f pos ≤ src.length := by
  intro f
  induction f with
  | zero => intro pos h; simpa [scanToNlF] using h
  | succ f ih =>
    intro pos h
    simp only [scanToNlF]
    cases hg : src.get? pos with
    | none => simpa using h
    | some b =>
      have hlt : pos < src.length := (List.get?_eq_some.mp hg).1
      by_cases hb : (b == 10) = true
      · simpa [hb] using h
      · simpa [hb] using ih (pos + 1) (by omega)

theorem lexStringF_ge (src : Str) (quote : Nat) :
    ∀ f pos, pos ≤ (lexStringF src quote f pos).2 := by
  intro f
  induction f with
  | zero => intro pos; simp [lexStringF]
  | succ f ih =>
    intro pos
    simp only [lexStringF]
    cases hg : src.get? pos with
    | none => simp
    | some b =>
      by_cases h1 : (b == quote) = true
      · simp [h1]
      · by_cases h2 : (b == 92) = true
        · cases he : src.get? (pos + 1) with
          | none => simp [h1, h2, he]
          | some esc => simpa [h1, h2, he] using le_trans (by omega) (ih (pos + 2))
        · by_cases h3 : (b == 10) = true
          · simp [h1, h2, h3]
          · simpa [h1, h2, h3] using le_trans (by omega) (ih (pos + 1))

theorem lexStringF_le (src : Str) (quote : Nat) :
    ∀ f pos, pos ≤ src.length → (lexStringF src quote f pos).2 ≤ src.length := by
  intro f
  induction f with
  | zero => intro pos h; simpa [lexStringF] using h
  | succ f ih =>
    intro pos h
    simp only [lexStringF]
    cases hg : src.get? pos with
    | none => simpa using h
    | some b =>
      have hlt : pos < src.length := (List.get?_eq_some.mp hg).1
      by_cases h1 : (b == quote) = true
      · simpa [h1] using hlt
      · by_cases h2 : (b == 92) = true
        · cases he : src.get? (pos + 1) with
          | none => simpa [h1, h2, he] using hlt
          | some esc =>
            have hlt2 : pos + 1 < src.length := (List.get?_eq_some.mp he).1
            simpa [h1, h2, he] using ih (pos + 2) (by omega)
        · by_cases h3 : (b == 10) = true
          · simpa [h1, h2, h3] using hlt
          · simpa [h1, h2, h3] using ih (pos + 1) (by omega)

theorem lexMacScanF_ge (src : Str) :
    ∀ f pos depth, pos ≤ (lexMacScanF src f pos depth).1 := by
  intro f
  induction f with
  | zero => intro pos depth; simp [lexMacScanF]
  | succ f ih =>
    intro pos depth
    simp only [lexMacScanF]
    cases depth with
    | zero => simp
    | succ d =>
      cases hg : src.get? pos with
      | none => simp
      | some b => simpa using le_trans (by omega) (ih (pos + 1) _)

theorem lexMacScanF_le (src : Str) :
    ∀ f pos depth, pos ≤ src.length → (lexMacScanF src f pos depth).1 ≤ src.length := by
  intro f
  induction f with
  | zero => intro pos depth h; simpa [lexMacScanF] using h
  | succ f ih =>
    intro pos depth h
    simp only [lexMacScanF]
    cases depth with
    | zero => simpa using h
    | succ d =>
      cases hg : src.get? pos with
      | none => simpa using h
      | some b =>
        have hlt : pos < src.length := (List.get?_eq_some.mp hg).1
        simpa using ih (pos + 1) _ (by omega)

theorem lexIdentScanF_ge (src : Str) : ∀ f pos, pos ≤ lexIdentScanF src f pos := by
  intro f
  induction f with
  | zero => intro pos; simp [lexIdentScanF]
  | succ f ih =>
    intro pos
    simp only [lexIdentScanF]
    cases h : src.get? pos with
    | none => simp
    | some b =>
      by_cases hb : isIdentCont b = true
      · simpa [hb] using le_trans (by omega) (ih (pos + 1))
      · simp [hb]

theorem lexIdentScanF_le (src : Str) :
    ∀ f pos, pos ≤ src.length → lexIdentScanF src f pos ≤ src.length := by
  intro f
  induction f with
  | zero => intro pos h; simpa [lexIdentScanF] using h
  | succ f ih =>
    intro pos h
    simp only [lexIdentScanF]
    cases hg : src.get? pos with
    | none => simpa using h
    | some b =>
      have hlt : pos < src.length := (List.get?_eq_some.mp hg).1
      by_cases hb : isIdentCont b = true
      · simpa [hb] using ih (pos + 1) (by omega)
      · simpa [hb] using h

set_option maxHeartbeats 1000000 in
/-- Bounds for one `next_token` step: the produced span lies between the
entry cursor and the returned cursor, which stays within the text. -/
theorem nextTokenF_bounds (src : Str) :
    ∀ f pos t q, pos ≤ src.length → nextTokenF src f pos = (t, q) →
      pos ≤ t.span.start ∧ t.span.start ≤ t.span.stop ∧ t.span.stop ≤ q ∧ q ≤ src.length := by
  intro f
  induction f with
  | zero =>
    intro pos t q h heq
    simp only [nextTokenF] at heq
    injection heq with hT hQ
    subst hT; subst hQ
    simp; omega
  | succ f ih =>
    intro pos t q h heq
    have hgs : pos ≤ skipWsCont src pos := skipWsCont_ge src pos
    have hls : skipWsCont src pos ≤ src.length := skipWsCont_le src pos h
    simp only [nextTokenF] at heq
    rcases hg : src.get? (skipWsCont src pos) with _ | b <;> rw [hg] at heq
    · simp only at heq
      injection heq with hT hQ
      subst hT; subst hQ
      simp; omega
    · have hlt : skipWsCont src pos < src.length := (List.get?_eq_some.mp hg).1
      simp only at heq
      by_cases h1 : (b == 10) = true
      · rw [if_pos h1] at heq
        injection heq with hT hQ
        subst hT; subst hQ
        simp; omega
      rw [if_neg h1] at heq
      by_cases h2 : (b == 35) = true
      · rw [if_pos h2] at heq
        have g1 := scanToNlF_ge src (src.length + 1) (skipWsCont src pos + 1)
        have g2 := scanToNlF_le src (src.length + 1) (skipWsCont src pos + 1) (by omega)
        injection heq with hT hQ
        subst hT; subst hQ
        simp only [scanToNl]
        simp; omega
      rw [if_neg h2] at heq
      by_cases h3 : (b == 34 || b == 39) = true
      · rw [if_pos h3] at heq
        have g1 := lexStringF_ge src b (src.length + 1) (skipWsCont src pos + 1)
        have g2 := lexStringF_le src b (src.length + 1) (skipWsCont src pos + 1) (by omega)
        injection heq with hT hQ
        subst hT; subst hQ
        simp only [lexStringBody]
        simp; omega
      rw [if_neg h3] at heq
      by_cases h4 : (b == 36 && src.get? (skipWsCont src pos + 1) == some 40) = true
      · rw [if_pos h4] at heq
        have h40 : src.get? (skipWsCont src pos + 1) = some 40 := by
          simp only [Bool.and_eq_true, beq_iff_eq] at h4
          exact h4.2
        have hlt2 : skipWsCont src pos + 1 < src.length := (List.get?_eq_some.mp h40).1
        have g1 := lexMacScanF_ge src (src.length + 1) (skipWsCont src pos + 2) 1
        have g2 := lexMacScanF_le src (src.length + 1) (skipWsCont src pos + 2) 1 (by omega)
        injection heq with hT hQ
        subst hT; subst hQ
        simp only [lexMacScan]
        simp; omega
      rw [if_neg h4] at heq
      by_cases h5 : (b == 40) = true
      · rw [if_pos h5] at heq
        injection heq with hT hQ
        subst hT; subst hQ
        simp; omega
      rw [if_neg h5] at heq
      by_cases h6 : (b == 41) = true
      · rw [if_pos h6] at heq
        injection heq with hT hQ
        subst hT; subst hQ
        simp; omega
      rw [if_neg h6] at heq
      by_cases h7 : (b == 33) = true
      · rw [if_pos h7] at heq
        by_cases h8 : (src.get? (skipWsCont src pos + 1) == some 61) = true
        · rw [if_pos h8] at heq
          have h61 : src.get? (skipWsCont src pos + 1) = some 61 := by simpa using h8
          have : skipWsCont src pos + 1 < src.length := (List.get?_eq_some.mp h61).1
          injection heq with hT hQ
          subst hT; subst hQ
          simp; omega
        · rw [if_neg h8] at heq
          injection heq with hT hQ
          subst hT; subst hQ
          simp; omega
      rw [if_neg h7] at heq
      by_cases h9 : (b == 61) = true
      · rw [if_pos h9] at heq
        injection heq with hT hQ
        subst hT; subst hQ
        simp; omega
      rw [if_neg h9] at heq
      by_cases h10 : (b == 60) = true
      · rw [if_pos h10] at heq
        by_cases h11 : (src.get? (skipWsCont src pos + 1) == some 61) = true
        · rw [if_pos h11] at heq
          have h61 : src.get? (skipWsCont src pos + 1) = some 61 := by simpa using h11
          have : skipWsCont src pos + 1 < src.length := (List.get?_eq_some.mp h61).1
          injection heq with hT hQ
          subst hT; subst hQ
          simp; omega
        · rw [if_neg h11] at heq
          injection heq with hT hQ
          subst hT; subst hQ
          simp; omega
      rw [if_neg h10] at heq
      by_cases h12 : (b == 62) = true
      · rw [if_pos h12] at heq
        by_cases h13 : (src.get? (skipWsCont src pos + 1) == some 61) = true
        · rw [if_pos h13] at heq
          have h61 : src.get? (skipWsCont src pos + 1) = some 61 := by simpa using h13
          have : skipWsCont src pos + 1 < src.length := (List.get?_eq_some.mp h61).1
          injection heq with hT hQ
          subst hT; subst hQ
          simp; omega
        · rw [if_neg h13] at heq
          injection heq with hT hQ
          subst hT; subst hQ
          simp; omega
      rw [if_neg h12] at heq
      by_cases h14 : (b == 38) = true
      · rw [if_pos h14] at heq
        by_cases h15 : (src.get? (skipWsCont src pos + 1) == some 38) = true
        · rw [if_pos h15] at heq
          have h38 : src.get? (skipWsCont src pos + 1) = some 38 := by simpa using h15
          have : skipWsCont src pos + 1 < src.length := (List.get?_eq_some.mp h38).1
          injection heq with hT hQ
          subst hT; subst hQ
          simp; omega
        · rw [if_neg h15] at heq
          have hb := ih (skipWsCont src pos + 1) t q (by omega) heq
          exact ⟨by omega, hb.2.1, hb.2.2.1, hb.2.2.2⟩
      rw [if_neg h14] at heq
      by_cases h16 : (b == 124) = true
      · rw [if_pos h16] at heq
        by_cases h17 : (src.get? (skipWsCont src pos + 1) == some 124) = true
        · rw [if_pos h17] at heq
          have h124 : src.get? (skipWsCont src pos + 1) = some 124 := by simpa using h17
          have : skipWsCont src pos + 1 < src.length := (List.get?_eq_some.mp h124).1
          injection heq with hT hQ
          subst hT; subst hQ
          simp; omega
        · rw [if_neg h17] at heq
          have hb := ih (skipWsCont src pos + 1) t q (by omega) heq
          exact ⟨by omega, hb.2.1, hb.2.2.1, hb.2.2.2⟩
      rw [if_neg h16] at heq
      by_cases h18 : isIdentStart b = true
      · rw [if_pos h18] at heq
        have g1 := lexIdentScanF_ge src (src.length + 1) (skipWsCont src pos + 1)
        have g2 := lexIdentScanF_le src (src.length + 1) (skipWsCont src pos + 1) (by omega)
        injection heq with hT hQ
        subst hT; subst hQ
        simp only [lexIdentScan]
        simp; omega
      rw [if_neg h18] at heq
      have hb := ih (skipWsCont src pos + 1) t q (by omega) heq
      exact ⟨by omega, hb.2.1, hb.2.2.1, hb.2.2.2⟩

set_option maxHeartbeats 1000000 in
/-- Progress for one `next_token` step: a non-eof token advances the
cursor, and is only produced strictly inside the text. -/
theorem nextTokenF_progress (src : Str) :
    ∀ f pos t q, nextTokenF src f pos = (t, q) → t.kind ≠ .eof →
      pos < q ∧ pos < src.length := by
  intro f
  induction f with
  | zero =>
    intro pos t q heq hne
    simp only [nextTokenF] at heq
    injection heq with hT hQ
    subst hT
    simp at hne
  | succ f ih =>
    intro pos t q heq hne
    have hgs : pos ≤ skipWsCont src pos := skipWsCont_ge src pos
    simp only [nextTokenF] at heq
    rcases hg : src.get? (skipWsCont src pos) with _ | b <;> rw [hg] at heq
    · simp only at heq
      injection heq with hT hQ
      subst hT
      simp at hne
    · have hlt : skipWsCont src pos < src.length := (List.get?_eq_some.mp hg).1
      simp only at heq
      by_cases h1 : (b == 10) = true
      · rw [if_pos h1] at heq
        injection heq with hT hQ
        subst hT; subst hQ
        constructor <;> omega
      rw [if_neg h1] at heq
      by_cases h2 : (b == 35) = true
      · rw [if_pos h2] at heq
        have g1 := scanToNlF_ge src (src.length + 1) (skipWsCont src pos + 1)
        injection heq with hT hQ
        subst hT; subst hQ
        simp only [scanToNl]
        constructor <;> omega
      rw [if_neg h2] at heq
      by_cases h3 : (b == 34 || b == 39) = true
      · rw [if_pos h3] at heq
        have g1 := lexStringF_ge src b (src.length + 1) (skipWsCont src pos + 1)
        injection heq with hT hQ
        subst hT; subst hQ
        simp only [lexStringBody]
        constructor <;> omega
      rw [if_neg h3] at heq
      by_cases h4 : (b == 36 && src.get? (skipWsCont src pos + 1) == some 40) = true
      · rw [if_pos h4] at heq
        have g1 := lexMacScanF_ge src (src.length + 1) (skipWsCont src pos + 2) 1
        injection heq with hT hQ
        subst hT; subst hQ
        simp only [lexMacScan]
        constructor <;> omega
      rw [if_neg h4] at heq
      by_cases h5 : (b == 40) = true
      · rw [if_pos h5] at heq
        injection heq with hT hQ
        subst hT; subst hQ
        constructor <;> omega
      rw [if_neg h5] at heq
      by_cases h6 : (b == 41) = true
      · rw [if_pos h6] at heq
        injection heq with hT hQ
        subst hT; subst hQ
        constructor <;> omega
      rw [if_neg h6] at heq
      by_cases h7 : (b == 33) = true
      · rw [if_pos h7] at heq
        by_cases h8 : (src.get? (skipWsCont src pos + 1) == some 61) = true
        · rw [if_pos h8] at heq
          injection heq with hT hQ
          subst hT; subst hQ
          constructor <;> omega
        · rw [if_neg h8] at heq
          injection heq with hT hQ
          subst hT; subst hQ
          constructor <;> omega
      rw [if_neg h7] at heq
      by_cases h9 : (b == 61) = true
      · rw [if_pos h9] at heq
        injection heq with hT hQ
        subst hT; subst hQ
        constructor <;> omega
      rw [if_neg h9] at heq
      by_cases h10 : (b == 60) = true
      · rw [if_pos h10] at heq
        by_cases h11 : (src.get? (skipWsCont src pos + 1) == some 61) = true
        · rw [if_pos h11] at heq
          injection heq with hT hQ
          subst hT; subst hQ
          constructor <;> omega
        · rw [if_neg h11] at heq
          injection heq with hT hQ
          subst hT; subst hQ
          constructor <;> omega
      rw [if_neg h10] at heq
      by_cases h12 : (b == 62) = true
      · rw [if_pos h12] at heq
        by_cases h13 : (src.get? (skipWsCont src pos + 1) == some 61) = true
        · rw [if_pos h13] at heq
          injection heq with hT hQ
          subst hT; subst hQ
          constructor <;> omega
        · rw [if_neg h13] at heq
          injection heq with hT hQ
          subst hT; subst hQ
          constructor <;> omega
      rw [if_neg h12] at heq
      by_cases h14 : (b == 38) = true
      · rw [if_pos h14] at heq
        by_cases h15 : (src.get? (skipWsCont src pos + 1) == some 38) = true
        · rw [if_pos h15] at heq
          injection heq with hT hQ
          subst hT; subst hQ
          constructor <;> omega
        · rw [if_neg h15] at heq
          have hb := ih (skipWsCont src pos + 1) t q heq hne
          constructor <;> omega
      rw [if_neg h14] at heq
      by_cases h16 : (b == 124) = true
      · rw [if_pos h16] at heq
        by_cases h17 : (src.get? (skipWsCont src pos + 1) == some 124) = true
        · rw [if_pos h17] at heq
          injection heq with hT hQ
          subst hT; subst hQ
          constructor <;> omega
        · rw [if_neg h17] at heq
          have hb := ih (skipWsCont src pos + 1) t q heq hne
          constructor <;> omega
      rw [if_neg h16] at heq
      by_cases h18 : isIdentStart b = true
      · rw [if_pos h18] at heq
        have g1 := lexIdentScanF_ge src (src.length + 1) (skipWsCont src pos + 1)
        injection heq with hT hQ
        subst hT; subst hQ
        simp only [lexIdentScan]
        constructor <;> omega
      rw [if_neg h18] at heq
      have hb := ih (skipWsCont src pos + 1) t q heq hne
      constructor <;> omega

/-! ## Tokenize-level lemmas and claims C9, C4, C5 -/

/-- Sufficient fuel: the token list ends in exactly one eof token. -/
theorem tokenizeF_eof (src : Str) :
    ∀ f pos, src.length - pos < f →
      ((tokenizeF src f pos).map Token.kind).getLast? = some .eof ∧
      ((tokenizeF src f pos).map Token.kind).count .eof = 1 := by
  intro f
  induction f with
  | zero => intro pos h; omega
  | succ f ih =>
    intro pos h
    simp only [tokenizeF]
    by_cases he : (nextToken src pos).1.kind = .eof
    · rw [if_pos he]
      refine ⟨by simp [he], ?_⟩
      rw [List.map_singleton, he]
      decide
    · rw [if_neg he]
      have hp := nextTokenF_progress src (src.length + 1) pos
        (nextToken src pos).1 (nextToken src pos).2 rfl he
      have hrec := ih (nextToken src pos).2 (by omega)
      refine ⟨?_, ?_⟩
      · rcases hr : (tokenizeF src f (nextToken src pos).2).map Token.kind with _ | ⟨x, xs⟩
        · rw [hr] at hrec; simp at hrec
        · rw [hr] at hrec
          simp only [List.map_cons, hr, List.getLast?_cons_cons]
          exact hrec.1
      · simp only [List.map_cons, List.count_cons]
        split
        next hx => exact absurd (eq_of_beq hx) he
        next => simpa using hrec.2

/-- C9: tokenization of any input terminates in a finite token sequence
whose last element is the unique end-of-input token.  The lexer has no
diagnostic output at all (its result type carries only tokens), so no input
— including unterminated strings, unbalanced macros, and unknown bytes —
produces a lexer diagnostic. -/
theorem C9_tokenize_single_eof (src : Str) :
    ((tokenize src).map Token.kind).getLast? = some .eof ∧
    ((tokenize src).map Token.kind).count .eof = 1 :=
  tokenizeF_eof src (src.length + 1) 0 (by omega)

/-- Ordered, non-overlapping spans with lower bound `lb`, all within the
text. -/
def spansOrdered (src : Str) : Nat → List Token → Prop
  | _, [] => True
  | lb, t :: ts =>
    lb ≤ t.span.start ∧ t.span.start ≤ t.span.stop ∧ t.span.stop ≤ src.length ∧
      spansOrdered src t.span.stop ts

theorem spansOrdered_mono (src : Str) (a b : Nat) (ts : List Token)
    (hab : a ≤ b) (h : spansOrdered src b ts) : spansOrdered src a ts := by
  cases ts with
  | nil => trivial
  | cons t ts => exact ⟨le_trans hab h.1, h.2.1, h.2.2.1, h.2.2.2⟩

theorem spansOrdered_tokenizeF (src : Str) :
    ∀ f pos, pos ≤ src.length → spansOrdered src pos (tokenizeF src f pos) := by
  intro f
  induction f with
  | zero => intro pos h; simp only [tokenizeF]; trivial
  | succ f ih =>
    intro pos h
    have hb := nextTokenF_bounds src (src.length + 1) pos
      (nextToken src pos).1 (nextToken src pos).2 h rfl
    simp only [tokenizeF]
    by_cases he : (nextToken src pos).1.kind = .eof
    · rw [if_pos he]
      exact ⟨hb.1, hb.2.1, by omega, trivial⟩
    · rw [if_neg he]
      have hp := nextTokenF_progress src (src.length + 1) pos
        (nextToken src pos).1 (nextToken src pos).2 rfl he
      refine ⟨hb.1, hb.2.1, by omega, ?_⟩
      exact spansOrdered_mono src _ _ _ (by omega) (ih (nextToken src pos).2 (by omega))

/-- The bytes underlying the token spans, concatenated in order. -/
def tokensBytes (src : Str) : Str :=
  ((tokenize src).map fun t => slice src t.span.start t.span.stop).flatten

theorem spansOrdered_join_sublist (src : Str) :
    ∀ ts lb, spansOrdered src lb ts →
      List.Sublist ((ts.map fun t => slice src t.span.start t.span.stop).flatten)
        (src.drop lb) := by
  intro ts
  induction ts with
  | nil => intro lb _; simp
  | cons t ts ih =>
    intro lb h
    obtain ⟨h1, h2, h3, h4⟩ := h
    simp only [List.map_cons, List.flatten_cons]
    have hrest := ih t.span.stop h4
    have hdec : src.drop lb =
        (src.drop lb).take (t.span.start - lb) ++
          (slice src t.span.start t.span.stop ++ src.drop t.span.stop) := by
      conv_lhs => rw [← List.take_append_drop (t.span.start - lb) (src.drop lb)]
      congr 1
      rw [List.drop_drop]
      have e1 : lb + (t.span.start - lb) = t.span.start := by omega
      rw [e1, slice]
      conv_lhs =>
        rw [← List.take_append_drop (t.span.stop - t.span.start) (src.drop t.span.start)]
      congr 1
      rw [List.drop_drop]
      congr 1
      omega
    rw [hdec]
    have s1 : List.Sublist
        (slice src t.span.start t.span.stop ++
          ((ts.map fun t => slice src t.span.start t.span.stop).flatten))
        (slice src t.span.start t.span.stop ++ src.drop t.span.stop) :=
      hrest.append_left _
    exact s1.trans (List.sublist_append_right _ _)

/-- C4 (amended): token spans are ordered and never overlap (so the
concatenated span bytes form a subsequence of the original text, in order
and without duplication), but bytes the lexer skips — spaces, tabs, line
continuations, unrecognized bytes — fall outside every span, so the
concatenation does not always recover the whole text. -/
theorem C4_spans_ordered_sublist (src : Str) :
    spansOrdered src 0 (tokenize src) ∧ (tokensBytes src).Sublist src := by
  have h := spansOrdered_tokenizeF src (src.length + 1) 0 (by omega)
  refine ⟨h, ?_⟩
  have hs := spansOrdered_join_sublist src (tokenize src) 0 h
  simpa [tokensBytes] using hs

/-- C4 (counterexample): for the one-byte text consisting of a single
space, the only token is the end-of-input token with an empty span, so the
concatenated span bytes are empty and do not recover the text. -/
theorem C4_roundtrip_cx : tokensBytes [32] ≠ [32] ∧ tokensBytes [32] = [] := by decide

/-- C5: the input text between triple-dash markers around `help` does NOT
lex to the `help` keyword token: `is_ident_start` rejects the leading dash,
so the lexer silently skips the three dashes and then lexes the identifier
starting at `h`, producing a plain identifier token whose text includes the
trailing dashes.  The keyword table does contain the legacy alias entry
(third conjunct), but no lexed identifier can ever match it — the alias is
dead code, contradicting the documented intent. -/
theorem C5_legacy_help_alias_dead :
    tokenize (ascii "---help---") =
      [⟨.ident (ascii "help---"), ⟨3, 10⟩⟩, ⟨.eof, ⟨10, 10⟩⟩] ∧
    tokenize (ascii "help") = [⟨.help, ⟨0, 4⟩⟩, ⟨.eof, ⟨4, 4⟩⟩] ∧
    keyword (ascii "---help---") = some .help := by decide

/-! ## Claim C6: position index offset conversion -/

/-- C6 (counterexample): for the empty text, line 1 is out of range; the
code returns the recorded start of the last known line (0) and discards the
column, while the claim predicts last-line start plus column (5). -/
theorem C6_offset_clamp_cx :
    (LineIndex.new []).offset 1 5 = 0 ∧
    ((LineIndex.new []).lineStarts.getLast?).getD 0 + 5 = 5 ∧
    (LineIndex.new []).offset 1 5 ≠ ((LineIndex.new []).lineStarts.getLast?).getD 0 + 5 := by
  decide

/-- C6 (amended): for a recorded line, the offset is the recorded line
start plus the column; for an out-of-range line, the offset is the recorded
start of the last known line, and the column is discarded. -/
theorem C6_offset (text : Str) (line col : Nat) :
    ((h : line < (LineIndex.new text).lineStarts.length) →
      (LineIndex.new text).offset line col =
        (LineIndex.new text).lineStarts.get ⟨line, h⟩ + col) ∧
    ((LineIndex.new text).lineStarts.length ≤ line →
      (LineIndex.new text).offset line col =
        (LineIndex.new text).lineStarts.getLast (by simp [LineIndex.new])) := by
  constructor
  · intro h
    simp only [LineIndex.offset, if_pos h]
    congr 1
    exact List.getD_eq_getElem _ _ h
  · intro h
    simp only [LineIndex.offset, if_neg (Nat.not_lt.mpr h)]
    rw [List.getLast?_eq_getLast _ (by simp [LineIndex.new])]
    rfl

/-- Witness for C6 at the two-line text with a newline: line 1 is recorded
with start 2, so offset(1, 2) is 4. -/
theorem C6_offset_witness :
    1 < (LineIndex.new (ascii "a\nb")).lineStarts.length ∧
    (LineIndex.new (ascii "a\nb")).offset 1 2 =
      (LineIndex.new (ascii "a\nb")).lineStarts.get ⟨1, by decide⟩ + 2 :=
  ⟨by decide, (C6_offset (ascii "a\nb") 1 2).1 (by decide)⟩

/-! ## Claim C3: recovery from a malformed statement line -/

/-- Lex and parse a text (the pipeline the server runs per file). -/
def parseText (src : Str) : ParseResult := parse src (tokenize src)

/-- Number of Error-severity diagnostics. -/
def errorCount (r : ParseResult) : Nat :=
  r.diagnostics.countP fun d => d.severity == .error

/-- The eight keywords `parse_entry` dispatches on. -/
def isEntryKeyword : TokenKind → Bool
  | .config => true
  | .menuConfig => true
  | .choice => true
  | .commentKw => true
  | .menu => true
  | .ifTok => true
  | .sourceKw => true
  | .mainMenu => true
  | _ => false

/-- The name of a config or menuconfig entry. -/
def entryName : Entry → Option Str
  | .config c => some c.name
  | .menuConfig c => some c.name
  | _ => none

theorem skipToEolF_diags (c : PCtx) : ∀ f st, (skipToEolF c f st).diags = st.diags := by
  intro f
  induction f with
  | zero => intro st; rfl
  | succ f ih =>
    intro st
    simp only [skipToEolF]
    cases peek c st with
    | newline => rfl
    | eof => rfl
    | _ => exact ih (advance st)

theorem skipToEol_diags (c : PCtx) (st : PState) : (skipToEol c st).diags = st.diags :=
  skipToEolF_diags c _ st

/-- C3 (counterexample): the file `config A / bool "a" / prompt "p"` has
exactly one malformed statement line — its third line starts with the
`prompt` token, which is not an entry keyword, and deleting that line
leaves a file that parses with no diagnostics at all.  Yet parsing the full
file produces ZERO Error diagnostics, not exactly one: the attribute loop
of the preceding `config` entry absorbs the line as a prompt attribute. -/
theorem C3_single_malformed_line_cx :
    (parseText (ascii "config A\nbool \"a\"\n")).diagnostics = [] ∧
    ((tokenize (ascii "config A\nbool \"a\"\nprompt \"p\"\n")).get? 6).map Token.kind =
      some .prompt ∧
    isEntryKeyword .prompt = false ∧
    errorCount (parseText (ascii "config A\nbool \"a\"\nprompt \"p\"\n")) = 0 ∧
    (0 : Nat) ≠ 1 := by
  decide

/-- C3 (amended): when the parser is at entry-dispatch position and the
next token is not an entry keyword, `parse_entry` emits exactly one
Error diagnostic and discards tokens through the next newline, then
continues — so a file whose single malformed line is reached at
entry-dispatch position yields exactly one Error diagnostic with all other
well-formed entries intact (demonstrated by the concrete file in the last
two conjuncts); a malformed line adjacent to a preceding entry
can instead be absorbed as one of its attributes (zero diagnostics,
see the counterexample) or split that entry. -/
theorem C3_malformed_dispatch_recovery :
    (∀ (c : PCtx) (f : Nat) (st : PState), isEntryKeyword (peek c st) = false →
      parseEntryF c (f + 1) st =
        (none, skipToEol c (pushDiag st (currentSpan c st) msgUnexpectedTopLevel .error))) ∧
    (∀ (c : PCtx) (st : PState) (sp : Span),
      (skipToEol c (pushDiag st sp msgUnexpectedTopLevel .error)).diags =
        st.diags ++ [⟨msgUnexpectedTopLevel, sp, .error⟩]) ∧
    errorCount (parseText (ascii "config A\nbool \"a\"\n= x\nconfig B\nbool \"b\"\n")) = 1 ∧
    (parseText (ascii "config A\nbool \"a\"\n= x\nconfig B\nbool \"b\"\n")).file.entries.filterMap
        entryName = [ascii "A", ascii "B"] := by
  refine ⟨?_, ?_, by decide, by decide⟩
  · intro c f st h
    rcases hp : peek c st with _ | _ | _ | _ | _ | _ | _ | _ | _ | _ | _ | _ | _ | _ | _ | _ |
      _ | _ | _ | _ | _ | _ | _ | _ | _ | _ | _ | _ | _ | _ | _ | _ | _ | _ | _ | _ | _ | _ |
      _ | _ | s0 | s0 | s0 | s0 | _ | _ <;>
      rw [hp] at h <;> first
        | exact absurd h (by decide)
        | (simp only [parseEntryF]; rw [hp])
  · intro c st sp
    rw [skipToEol_diags]
    rfl

/-- Witness for C3 at a concrete dispatch state: the cursor stands on an
`=` token, which is not an entry keyword. -/
theorem C3_malformed_dispatch_recovery_witness :
    isEntryKeyword (peek ⟨ascii "= x\n", tokenize (ascii "= x\n")⟩ ⟨0, []⟩) = false ∧
    parseEntryF ⟨ascii "= x\n", tokenize (ascii "= x\n")⟩ 1 ⟨0, []⟩ =
      (none, skipToEol ⟨ascii "= x\n", tokenize (ascii "= x\n")⟩
        (pushDiag ⟨0, []⟩ (currentSpan ⟨ascii "= x\n", tokenize (ascii "= x\n")⟩ ⟨0, []⟩)
          msgUnexpectedTopLevel .error)) :=
  ⟨by decide,
    C3_malformed_dispatch_recovery.1 ⟨ascii "= x\n", tokenize (ascii "= x\n")⟩ 0 ⟨0, []⟩
      (by decide)⟩

/-! ## Claim C7: help-text capture and indent stripping -/

/-- Leading-whitespace width of a line. -/
def indentOf (l : Str) : Nat := l.length - (trimStart l).length

/-- First line that is not blank (not whitespace-only). -/
def firstNonBlank (ls : List Str) : Option Str :=
  ls.find? fun l => !(trimStart l).isEmpty

theorem trimStart_length_le (l : Str) : (trimStart l).length ≤ l.length := by
  induction l with
  | nil => simp [trimStart]
  | cons b r ih =>
    simp only [trimStart]
    split
    · exact le_trans ih (by simp)
    · simp

/-- Once the base indent is fixed, the loop never changes it. -/
theorem helpLoop_base_some : ∀ (ls : List Str) (bi : Nat),
    (helpLoop ls (some bi)).2.2 = some bi := by
  intro ls
  induction ls with
  | nil => intro bi; rfl
  | cons l rest ih =>
    intro bi
    simp only [helpLoop]
    split
    · exact ih bi
    · split
      · rfl
      · exact ih bi

/-- With the base indent fixed, every captured line is either the empty
line (recorded for a blank input line) or a non-blank input line indented
at least the base indent. -/
theorem helpLoop_mem_some : ∀ (ls : List Str) (bi : Nat) (l : Str),
    l ∈ (helpLoop ls (some bi)).1 →
      l = [] ∨ ((trimStart l).isEmpty = false ∧ bi ≤ indentOf l ∧ l ∈ ls) := by
  intro ls
  induction ls with
  | nil => intro bi l h; simp [helpLoop] at h
  | cons hd rest ih =>
    intro bi l h
    simp only [helpLoop] at h
    by_cases hb : (trimStart hd).isEmpty = true
    · rw [if_pos hb] at h
      rcases List.mem_cons.mp h with h0 | h0
      · exact Or.inl h0
      · rcases ih bi l h0 with h1 | h1
        · exact Or.inl h1
        · exact Or.inr ⟨h1.1, h1.2.1, List.mem_cons_of_mem _ h1.2.2⟩
    · rw [if_neg hb] at h
      by_cases hlt : hd.length - (trimStart hd).length < bi
      · rw [if_pos hlt] at h
        simp at h
      · rw [if_neg hlt] at h
        rcases List.mem_cons.mp h with h0 | h0
        · subst h0
          exact Or.inr ⟨by simpa using hb, by simp only [indentOf]; omega, List.mem_cons_self _ _⟩
        · rcases ih bi l h0 with h1 | h1
          · exact Or.inl h1
          · exact Or.inr ⟨h1.1, h1.2.1, List.mem_cons_of_mem _ h1.2.2⟩

/-- Starting with no base indent, the first non-blank line fixes the base
indent as its own leading-whitespace width. -/
theorem helpLoop_base_none : ∀ (ls : List Str) (l : Str),
    firstNonBlank ls = some l → (helpLoop ls none).2.2 = some (indentOf l) := by
  intro ls
  induction ls with
  | nil => intro l h; simp [firstNonBlank] at h
  | cons hd rest ih =>
    intro l h
    simp only [firstNonBlank, List.find?] at h
    by_cases hb : (trimStart hd).isEmpty = true
    · simp only [hb, Bool.not_true] at h
      simp only [helpLoop, if_pos hb]
      exact ih l h
    · have hb2 : (trimStart hd).isEmpty = false := by simpa using hb
      simp only [hb2, Bool.not_false] at h
      injection h with h
      subst h
      simp only [helpLoop]
      rw [if_neg hb]
      exact helpLoop_base_some rest (indentOf hd)

/-- C7 (counterexample): in the help block with lines indented 2, 3
(whitespace-only), and 2, the base indent is 2 but the whitespace-only
middle line is captured as the empty line — all three of its bytes are
removed — whereas the claim says every captured line has exactly the base
indent (2 bytes) stripped, which would leave one space. -/
theorem C7_blank_line_strip_cx :
    (helpLoop [ascii "  a", ascii "   ", ascii "  b"] none).2.2 = some 2 ∧
    (stripLines 2 (helpLoop [ascii "  a", ascii "   ", ascii "  b"] none).1).get? 1 =
      some [] ∧
    (ascii "   ").drop 2 = [32] ∧
    ([] : Str) ≠ [32] := by
  decide

/-- C7 (amended): the first non-blank line's leading-whitespace width
becomes the base indent; every captured line is blank (captured as the
empty line, i.e. fully trimmed) or a non-blank line indented at least the
base indent; a less-indented non-blank line ends the block; NON-BLANK
captured lines have exactly the base indent stripped.  In particular, for
the 2/4/2 block the three lines are stripped by exactly 2 and the 4-space
line keeps 2 leading spaces (final conjuncts, through the whole parser). -/
theorem C7_help_capture :
    (∀ (ls : List Str) (l : Str),
      firstNonBlank ls = some l → (helpLoop ls none).2.2 = some (indentOf l)) ∧
    (∀ (ls : List Str) (bi : Nat) (l : Str),
      l ∈ (helpLoop ls (some bi)).1 →
        l = [] ∨ ((trimStart l).isEmpty = false ∧ bi ≤ indentOf l ∧ l ∈ ls)) ∧
    (∀ (l : Str) (ls : List Str) (bi : Nat),
      (trimStart l).isEmpty = false → indentOf l < bi →
        helpLoop (l :: ls) (some bi) = ([], 0, some bi)) ∧
    (∀ (bi : Nat) (l : Str),
      (trimStart l).isEmpty = false → bi ≤ indentOf l →
        stripLines bi [l] = [l.drop bi]) ∧
    (parseText (ascii "config A\nhelp\n  l1\n    l2\n  l3\nconfig B\n")).file.entries.filterMap
        entryName = [ascii "A", ascii "B"] ∧
    ((parseText (ascii "config A\nhelp\n  l1\n    l2\n  l3\nconfig B\n")).file.entries.map
        fun e =>
          match e with
          | .config c => c.attributes.filterMap fun a =>
              match a with
              | .help h => some h.text
              | _ => none
          | _ => []) = [[ascii "l1\n  l2\nl3"], []] := by
  refine ⟨helpLoop_base_none, helpLoop_mem_some, ?_, ?_, by decide, by decide⟩
  · intro l ls bi hb hlt
    have hb2 : ¬ ((trimStart l).isEmpty = true) := by simp [hb]
    have hlt2 : l.length - (trimStart l).length < bi := by simpa [indentOf] using hlt
    simp only [helpLoop]
    rw [if_neg hb2, if_pos hlt2]
  · intro bi l hb hle
    have h1 : (trimStart l).length ≠ 0 := by
      simpa [List.isEmpty_iff_length_eq_zero] using hb
    have h2 : (trimStart l).length ≤ l.length := trimStart_length_le l
    have h3 : bi < l.length := by
      simp only [indentOf] at hle
      omega
    simp [stripLines, if_pos h3]

/-- Witness for C7 at the counterexample block: base indent from the first
non-blank line, membership of a captured line, the block-ending rule, and
the exact-strip rule, each at concrete inputs. -/
theorem C7_help_capture_witness :
    firstNonBlank [ascii "  a", ascii "   ", ascii "  b"] = some (ascii "  a") ∧
    (helpLoop [ascii "  a", ascii "   ", ascii "  b"] none).2.2 =
      some (indentOf (ascii "  a")) ∧
    ((trimStart (ascii " x")).isEmpty = false ∧ indentOf (ascii " x") < 2) ∧
    helpLoop [ascii " x"] (some 2) = ([], 0, some 2) ∧
    ((trimStart (ascii "    l2")).isEmpty = false ∧ 2 ≤ indentOf (ascii "    l2")) ∧
    stripLines 2 [ascii "    l2"] = [(ascii "    l2").drop 2] :=
  ⟨by decide,
    C7_help_capture.1 [ascii "  a", ascii "   ", ascii "  b"] (ascii "  a") (by decide),
    ⟨by decide, by decide⟩,
    C7_help_capture.2.2.1 (ascii " x") [] 2 (by decide) (by decide),
    ⟨by decide, by decide⟩,
    C7_help_capture.2.2.2.1 2 (ascii "    l2") (by decide) (by decide)⟩

/-! ## Claim C8: reference classification of `select FOO if BAR` -/

/-- C8: a `select FOO if BAR` attribute contributes exactly one reference
to FOO tagged select and one reference to BAR tagged select (the guard
condition shares the parent attribute's kind), provided BAR is an actual
symbol (not a tristate literal `y`/`n`/`m` and not empty, which reference
collection excludes).  The second conjunct embeds the attribute in a
`config` entry and collects over the whole entry. -/
theorem C8_select_if_refs (foo bar : Str) (fooSp barSp sp : Span) (file : Str)
    (hbar1 : isTristateLiteral bar = false) (hbar2 : bar ≠ []) :
    collectAttrRefs (.select ⟨foo, fooSp, some (.symbol bar barSp), sp⟩) file =
      [⟨foo, .select, fooSp, file⟩, ⟨bar, .select, barSp, file⟩] ∧
    (∀ (cn : Str) (cns csp : Span),
      (collectConfig ⟨cn, cns, [.select ⟨foo, fooSp, some (.symbol bar barSp), sp⟩], csp⟩
          .config file).2 =
        [⟨foo, .select, fooSp, file⟩, ⟨bar, .select, barSp, file⟩]) := by
  have hbe : bar.isEmpty = false := by
    cases bar with
    | nil => exact absurd rfl hbar2
    | cons a l => rfl
  constructor
  · simp [collectAttrRefs, collectExprRefs, Expr.collectSymbols, hbar1, hbe]
  · intro cn cns csp
    simp [collectConfig, collectAttrRefs, collectExprRefs, Expr.collectSymbols, hbar1, hbe]

/-- Witness for C8 at concrete symbol names FOO and BAR. -/
theorem C8_select_if_refs_witness :
    (isTristateLiteral (ascii "BAR") = false ∧ ascii "BAR" ≠ []) ∧
    collectAttrRefs
        (.select ⟨ascii "FOO", ⟨7, 10⟩, some (.symbol (ascii "BAR") ⟨14, 17⟩), ⟨0, 17⟩⟩)
        (ascii "f") =
      [⟨ascii "FOO", .select, ⟨7, 10⟩, ascii "f"⟩,
        ⟨ascii "BAR", .select, ⟨14, 17⟩, ascii "f"⟩] :=
  ⟨⟨by decide, by decide⟩,
    (C8_select_if_refs (ascii "FOO") (ascii "BAR") ⟨7, 10⟩ ⟨14, 17⟩ ⟨0, 17⟩ (ascii "f")
      (by decide) (by decide)).1⟩

/-! ## Claim C10: empty-name definitions are indexed -/

/-- C10: when `config`/`menuconfig` is not followed by an identifier-like
token, `expect_ident` emits one Error diagnostic and yields the empty name
without consuming a token (first conjunct); reference collection filters
out empty names (second conjunct), but definitions are never filtered: the
parse of a nameless `config` produces an entry named by the empty string,
and analysis indexes it — the definitions mapping and the all-symbols
enumeration contain the empty string (remaining conjuncts). -/
theorem C10_empty_name_indexed :
    (∀ (c : PCtx) (st : PState),
      (∀ s, peek c st ≠ .ident s) → isSymbolLikeKeyword (peek c st) = false →
        expectIdent c st =
          (([], currentSpan c st),
            pushDiag st (currentSpan c st) msgExpectedIdentifier .error)) ∧
    (∀ (e : Expr) (k : RefKind) (file : Str) (r : SymbolRef),
      r ∈ collectExprRefs e k file → r.name ≠ [] ∧ isTristateLiteral r.name = false) ∧
    (parseText (ascii "config\n")).file.entries.filterMap entryName = [[]] ∧
    (WorldIndex.new.analyzeFile (ascii "f") (ascii "config\n")).getDefinitions [] =
      [⟨[], .config, ⟨6, 7⟩, none, none, none, ascii "f"⟩] ∧
    [] ∈ (WorldIndex.new.analyzeFile (ascii "f") (ascii "config\n")).allSymbols ∧
    (WorldIndex.new.analyzeFile (ascii "f") (ascii "config\n")).references = [] := by
  refine ⟨?_, ?_, by decide, by decide, by decide, by decide⟩
  · intro c st h1 h2
    simp only [expectIdent]
    split
    next h => rw [h2] at h; exact Bool.noConfusion h
    next => rfl
  · intro e k file r hr
    simp only [collectExprRefs, List.mem_map] at hr
    obtain ⟨⟨name, span⟩, hmem, rfl⟩ := hr
    have hc := List.of_mem_filter hmem
    simp only [Bool.not_eq_true', Bool.or_eq_false_iff] at hc
    constructor
    · show name ≠ []
      intro hn
      subst hn
      simpa using hc.2
    · show isTristateLiteral name = false
      exact hc.1

/-- Witness for C10 with the cursor on the newline after `config`. -/
theorem C10_empty_name_indexed_witness :
    (peek ⟨ascii "config\n", tokenize (ascii "config\n")⟩ ⟨1, []⟩ = .newline ∧
      isSymbolLikeKeyword (peek ⟨ascii "config\n", tokenize (ascii "config\n")⟩ ⟨1, []⟩) =
        false) ∧
    expectIdent ⟨ascii "config\n", tokenize (ascii "config\n")⟩ ⟨1, []⟩ =
      (([], currentSpan ⟨ascii "config\n", tokenize (ascii "config\n")⟩ ⟨1, []⟩),
        pushDiag ⟨1, []⟩
          (currentSpan ⟨ascii "config\n", tokenize (ascii "config\n")⟩ ⟨1, []⟩)
          msgExpectedIdentifier .error) := by
  refine ⟨⟨by decide, by decide⟩, ?_⟩
  apply C10_empty_name_indexed.1
  · intro s h
    rw [show peek ⟨ascii "config\n", tokenize (ascii "config\n")⟩ ⟨1, []⟩ = .newline from
      by decide] at h
    simp at h
  · decide

/-! ## Claim C1: `remove_file` purges a file completely -/

/-- Total number of entries across all buckets of a name-keyed mapping. -/
def totalBuckets {α : Type} (m : List (Str × List α)) : Nat :=
  (m.map fun kv => kv.2.length).sum

/-- Number of entries owned by file `p` across all buckets. -/
def countOfFile {α : Type} (fl : α → Str) (p : Str) (m : List (Str × List α)) : Nat :=
  (m.map fun kv => (kv.2.filter fun d => fl d = p).length).sum

def totalDefs (m : List (Str × List SymbolDef)) : Nat := totalBuckets m

def totalRefs (m : List (Str × List SymbolRef)) : Nat := totalBuckets m

/-- After the retain pass, no bucket holds an entry of the removed file and
no bucket is empty. -/
theorem removeBucketsOf_mem {α : Type} (fl : α → Str) (p : Str) (m : List (Str × List α)) :
    ∀ kv ∈ removeBucketsOf fl p m, (∀ d ∈ kv.2, fl d ≠ p) ∧ kv.2 ≠ [] := by
  intro kv hkv
  obtain ⟨hmem, hq⟩ := List.mem_filter.mp hkv
  obtain ⟨kv0, hkv0, rfl⟩ := List.mem_map.mp hmem
  constructor
  · intro d hd
    simpa using List.of_mem_filter hd
  · intro hnil
    have h0 : List.filter (fun d => decide (fl d ≠ p)) kv0.2 = [] := hnil
    rw [h0] at hq
    simp at hq

theorem length_filter_file {α : Type} (fl : α → Str) (p : Str) :
    ∀ l : List α,
      (l.filter fun d => fl d ≠ p).length + (l.filter fun d => fl d = p).length = l.length := by
  intro l
  induction l with
  | nil => rfl
  | cons a l ih =>
    by_cases h : fl a = p
    · have h1 : (decide (fl a ≠ p)) = false := by simp [h]
      have h2 : (decide (fl a = p)) = true := by simp [h]
      simp only [List.filter_cons, h1, h2]
      first
        | rw [if_pos rfl]
        | rw [if_pos trivial]
      rw [if_neg (by simp)]
      simp only [List.length_cons]
      omega
    · have h1 : (decide (fl a ≠ p)) = true := by simp [h]
      have h2 : (decide (fl a = p)) = false := by simp [h]
      simp only [List.filter_cons, h1, h2]
      first
        | rw [if_pos rfl]
        | rw [if_pos trivial]
      rw [if_neg (by simp)]
      simp only [List.length_cons]
      omega

theorem totalBuckets_filter_empty {α : Type} (m : List (Str × List α)) :
    totalBuckets (m.filter fun kv => !kv.2.isEmpty) = totalBuckets m := by
  induction m with
  | nil => rfl
  | cons kv m ih =>
    by_cases hq : kv.2.isEmpty = true
    · have h0 : kv.2.length = 0 := by simpa [List.isEmpty_iff_length_eq_zero] using hq
      have hq2 : (!kv.2.isEmpty) = false := by simp [hq]
      simp only [List.filter_cons, hq2]
      rw [if_neg (by simp)]
      simp only [totalBuckets, List.map_cons, List.sum_cons]
      simp only [totalBuckets] at ih
      omega
    · have hq2 : (!kv.2.isEmpty) = true := by simp [hq]
      simp only [List.filter_cons, hq2]
      first
        | rw [if_pos rfl]
        | rw [if_pos trivial]
      simp only [totalBuckets, List.map_cons, List.sum_cons]
      simp only [totalBuckets] at ih
      omega

theorem totalBuckets_remove {α : Type} (fl : α → Str) (p : Str) (m : List (Str × List α)) :
    totalBuckets m = totalBuckets (removeBucketsOf fl p m) + countOfFile fl p m := by
  rw [removeBucketsOf, totalBuckets_filter_empty]
  induction m with
  | nil => rfl
  | cons kv m ih =>
    simp only [totalBuckets, countOfFile, List.map_cons, List.sum_cons] at *
    have := length_filter_file fl p kv.2
    omega

/-- Keys of the retained mapping form a sub-sequence of the original keys. -/
theorem removeBucketsOf_keys_sublist {α : Type} (fl : α → Str) (p : Str)
    (m : List (Str × List α)) :
    List.Sublist ((removeBucketsOf fl p m).map Prod.fst) (m.map Prod.fst) := by
  have h1 : List.Sublist (removeBucketsOf fl p m)
      (m.map fun kv => (kv.1, kv.2.filter (fun d => fl d ≠ p))) := List.filter_sublist _
  have h2 := h1.map Prod.fst
  rw [List.map_map] at h2
  have h3 : (Prod.fst ∘ fun kv : Str × List α =>
      ((kv.1, kv.2.filter (fun d => decide (fl d ≠ p))) : Str × List α)) = Prod.fst := by
    funext kv
    rfl
  rw [h3] at h2
  exact h2

/-- C1: after `remove_file(path)`: the file map has no entry for the path;
no definition and no reference owned by the path remains in the global
mappings; the mappings shrink by exactly the number of definitions (N) and
references (M) the path owned there; and the all-symbols enumeration is
exactly the key set of the definitions mapping, without duplicates (given
the hash-map invariant that the keys were distinct). -/
theorem C1_remove_file_purges (w : WorldIndex) (p : Str)
    (hkeys : (w.definitions.map Prod.fst).Nodup) :
    filesLookup (w.removeFile p).files p = none ∧
    (∀ kv ∈ (w.removeFile p).definitions, ∀ d ∈ kv.2, d.file ≠ p) ∧
    (∀ kv ∈ (w.removeFile p).references, ∀ r ∈ kv.2, r.file ≠ p) ∧
    totalDefs w.definitions =
      totalDefs (w.removeFile p).definitions + countOfFile SymbolDef.file p w.definitions ∧
    totalRefs w.references =
      totalRefs (w.removeFile p).references + countOfFile SymbolRef.file p w.references ∧
    (w.removeFile p).allSymbols = (w.removeFile p).definitions.map Prod.fst ∧
    (w.removeFile p).allSymbols.Nodup := by
  refine ⟨?_, ?_, ?_, ?_, ?_, rfl, ?_⟩
  · simp only [WorldIndex.removeFile, filesLookup]
    rw [List.find?_eq_none.mpr]
    · rfl
    · intro kv hkv
      have := (List.mem_filter.mp hkv).2
      simpa using this
  · intro kv hkv d hd
    exact ((removeBucketsOf_mem SymbolDef.file p w.definitions kv hkv).1 d hd)
  · intro kv hkv r hr
    exact ((removeBucketsOf_mem SymbolRef.file p w.references kv hkv).1 r hr)
  · exact totalBuckets_remove SymbolDef.file p w.definitions
  · exact totalBuckets_remove SymbolRef.file p w.references
  · exact ((removeBucketsOf_keys_sublist SymbolDef.file p w.definitions).nodup hkeys)

/-- Witness for C1 at a one-file index holding one definition and one
reference. -/
theorem C1_remove_file_purges_witness :
    ((WorldIndex.mk
        [(ascii "A", [⟨ascii "A", .config, ⟨0, 1⟩, none, none, none, ascii "f"⟩])]
        [(ascii "B", [⟨ascii "B", .dependsOn, ⟨2, 3⟩, ascii "f"⟩])]
        [ascii "A"]
        [(ascii "f", ⟨⟨[]⟩, ⟨[0]⟩, [], []⟩)]).definitions.map Prod.fst).Nodup ∧
    filesLookup ((WorldIndex.mk
        [(ascii "A", [⟨ascii "A", .config, ⟨0, 1⟩, none, none, none, ascii "f"⟩])]
        [(ascii "B", [⟨ascii "B", .dependsOn, ⟨2, 3⟩, ascii "f"⟩])]
        [ascii "A"]
        [(ascii "f", ⟨⟨[]⟩, ⟨[0]⟩, [], []⟩)]).removeFile (ascii "f")).files (ascii "f") =
      none :=
  ⟨by decide,
    (C1_remove_file_purges
      (WorldIndex.mk
        [(ascii "A", [⟨ascii "A", .config, ⟨0, 1⟩, none, none, none, ascii "f"⟩])]
        [(ascii "B", [⟨ascii "B", .dependsOn, ⟨2, 3⟩, ascii "f"⟩])]
        [ascii "A"]
        [(ascii "f", ⟨⟨[]⟩, ⟨[0]⟩, [], []⟩)])
      (ascii "f") (by decide)).1⟩

/-! ## Claim C2: reanalyze is idempotent -/

theorem collectExprRefs_file (e : Expr) (k : RefKind) (p : Str) :
    ∀ r ∈ collectExprRefs e k p, r.file = p := by
  intro r hr
  simp only [collectExprRefs, List.mem_map] at hr
  obtain ⟨⟨name, span⟩, _, rfl⟩ := hr
  rfl

theorem collectAttrRefs_file (a : Attribute) (p : Str) :
    ∀ r ∈ collectAttrRefs a p, r.file = p := by
  intro r hr
  cases a with
  | dependsOn d => exact collectExprRefs_file _ _ _ r hr
  | select s =>
    simp only [collectAttrRefs] at hr
    rcases List.mem_cons.mp hr with h | h
    · rw [h]
    · cases hc : s.condition with
      | some cond => rw [hc] at h; exact collectExprRefs_file _ _ _ r h
      | none => rw [hc] at h; simp at h
  | imply i =>
    simp only [collectAttrRefs] at hr
    rcases List.mem_cons.mp hr with h | h
    · rw [h]
    · cases hc : i.condition with
      | some cond => rw [hc] at h; exact collectExprRefs_file _ _ _ r h
      | none => rw [hc] at h; simp at h
  | default d =>
    simp only [collectAttrRefs] at hr
    rcases List.mem_append.mp hr with h | h
    · exact collectExprRefs_file _ _ _ r h
    · cases hc : d.condition with
      | some cond => rw [hc] at h; exact collectExprRefs_file _ _ _ r h
      | none => rw [hc] at h; simp at h
  | defType dt =>
    simp only [collectAttrRefs] at hr
    rcases List.mem_append.mp hr with h | h
    · exact collectExprRefs_file _ _ _ r h
    · cases hc : dt.condition with
      | some cond => rw [hc] at h; exact collectExprRefs_file _ _ _ r h
      | none => rw [hc] at h; simp at h
  | visibleIf v => exact collectExprRefs_file _ _ _ r hr
  | range rg =>
    simp only [collectAttrRefs] at hr
    rcases List.mem_append.mp hr with h | h
    · rcases List.mem_append.mp h with h2 | h2 <;> exact collectExprRefs_file _ _ _ r h2
    · cases hc : rg.condition with
      | some cond => rw [hc] at h; exact collectExprRefs_file _ _ _ r h
      | none => rw [hc] at h; simp at h
  | type t =>
    simp only [collectAttrRefs] at hr
    cases hp : t.prompt with
    | some pr =>
      rw [hp] at hr
      simp only at hr
      cases hc : pr.condition with
      | some cond => rw [hc] at hr; exact collectExprRefs_file _ _ _ r hr
      | none => rw [hc] at hr; simp at hr
    | none => rw [hp] at hr; simp at hr
  | prompt pr =>
    simp only [collectAttrRefs] at hr
    cases hc : pr.condition with
    | some cond => rw [hc] at hr; exact collectExprRefs_file _ _ _ r hr
    | none => rw [hc] at hr; simp at hr
  | help h => simp [collectAttrRefs] at hr
  | modules sp => simp [collectAttrRefs] at hr
  | transitional sp => simp [collectAttrRefs] at hr
  | optional sp => simp [collectAttrRefs] at hr

theorem collectConfig_file (c : ConfigEntry) (k : DefKind) (p : Str) :
    (∀ d ∈ (collectConfig c k p).1, d.file = p) ∧
    (∀ r ∈ (collectConfig c k p).2, r.file = p) := by
  constructor
  · intro d hd
    simp only [collectConfig, List.mem_singleton] at hd
    rw [hd]
  · intro r hr
    simp only [collectConfig, List.mem_flatMap] at hr
    obtain ⟨a, _, hra⟩ := hr
    exact collectAttrRefs_file a p r hra

/-- Every collected definition and reference is stamped with the analyzed
file, at any fuel. -/
theorem collect_file (p : Str) : ∀ fuel : Nat,
    (∀ e : Entry, (∀ d ∈ (collectEntryF fuel e p).1, d.file = p) ∧
      (∀ r ∈ (collectEntryF fuel e p).2, r.file = p)) ∧
    (∀ es : List Entry, (∀ d ∈ (collectEntriesF fuel es p).1, d.file = p) ∧
      (∀ r ∈ (collectEntriesF fuel es p).2, r.file = p)) := by
  intro fuel
  induction fuel with
  | zero =>
    constructor
    · intro e
      constructor <;> intro x hx <;> simp [collectEntryF] at hx
    · intro es
      constructor <;> intro x hx <;> simp [collectEntriesF] at hx
  | succ f ih =>
    constructor
    · intro e
      cases e with
      | config c => exact collectConfig_file c .config p
      | menuConfig c => exact collectConfig_file c .menuConfig p
      | choice attrs entries sp =>
        simp only [collectEntryF]
        constructor
        · intro d hd
          exact (ih.2 entries).1 d hd
        · intro r hr
          rcases List.mem_append.mp hr with h | h
          · obtain ⟨a, _, hra⟩ := List.mem_flatMap.mp h
            exact collectAttrRefs_file a p r hra
          · exact (ih.2 entries).2 r h
      | comment pr prSp attrs sp =>
        simp only [collectEntryF]
        constructor
        · intro d hd; simp at hd
        · intro r hr
          obtain ⟨a, _, hra⟩ := List.mem_flatMap.mp hr
          exact collectAttrRefs_file a p r hra
      | menu pr prSp attrs entries sp =>
        simp only [collectEntryF]
        constructor
        · intro d hd
          exact (ih.2 entries).1 d hd
        · intro r hr
          rcases List.mem_append.mp hr with h | h
          · obtain ⟨a, _, hra⟩ := List.mem_flatMap.mp h
            exact collectAttrRefs_file a p r hra
          · exact (ih.2 entries).2 r h
      | ifE cond entries sp =>
        simp only [collectEntryF]
        constructor
        · intro d hd
          exact (ih.2 entries).1 d hd
        · intro r hr
          rcases List.mem_append.mp hr with h | h
          · exact collectExprRefs_file _ _ _ r h
          · exact (ih.2 entries).2 r h
      | sourceE pa paSp sp =>
        constructor <;> intro x hx <;> simp [collectEntryF] at hx
      | mainMenu pr prSp sp =>
        constructor <;> intro x hx <;> simp [collectEntryF] at hx
    · intro es
      cases es with
      | nil => constructor <;> intro x hx <;> simp [collectEntriesF] at hx
      | cons e rest =>
        simp only [collectEntriesF]
        constructor
        · intro d hd
          rcases List.mem_append.mp hd with h | h
          · exact (ih.1 e).1 d h
          · exact (ih.2 rest).1 d h
        · intro r hr
          rcases List.mem_append.mp hr with h | h
          · exact (ih.1 e).2 r h
          · exact (ih.2 rest).2 r h

/-- Pushing an entry owned by `p` is invisible after the retain pass for
`p`: it is filtered back out of an existing bucket, and a fresh bucket for
it comes back empty and is dropped. -/
theorem removeBucketsOf_pushBucket {α : Type} (fl key : α → Str) (p : Str)
    (m : List (Str × List α)) (x : α) (hx : fl x = p) :
    removeBucketsOf fl p (pushBucket key m x) = removeBucketsOf fl p m := by
  have hxf : (decide (fl x ≠ p)) = false := by simp [hx]
  by_cases hc : m.any (fun kv => kv.1 = key x) = true
  · simp only [pushBucket, if_pos hc]
    simp only [removeBucketsOf, List.map_map]
    congr 1
    apply List.map_congr_left
    intro kv _
    by_cases hk : kv.1 = key x
    · simp only [Function.comp_apply, if_pos hk, List.filter_append]
      simp [hxf, hx]
    · simp only [Function.comp_apply, if_neg hk]
  · simp only [pushBucket, if_neg hc]
    simp only [removeBucketsOf, List.map_append, List.filter_append]
    have hsingle : ((([(key x, [x])] : List (Str × List α)).map
        fun kv => (kv.1, kv.2.filter (fun d => decide (fl d ≠ p)))).filter
          fun kv => !kv.2.isEmpty) = [] := by
      simp [hxf, hx]
    rw [hsingle, List.append_nil]

theorem removeBucketsOf_foldl {α : Type} (fl key : α → Str) (p : Str) :
    ∀ (ds : List α) (m : List (Str × List α)), (∀ d ∈ ds, fl d = p) →
      removeBucketsOf fl p (ds.foldl (pushBucket key) m) = removeBucketsOf fl p m := by
  intro ds
  induction ds with
  | nil => intro m _; rfl
  | cons d ds ih =>
    intro m h
    simp only [List.foldl_cons]
    rw [ih (pushBucket key m d) fun x hx => h x (List.mem_cons_of_mem _ hx)]
    exact removeBucketsOf_pushBucket fl key p m d (h d (List.mem_cons_self _ _))

/-- The retain pass is the identity on a mapping already containing no
entries of file `p` and no empty buckets. -/
theorem removeBucketsOf_clean {α : Type} (fl : α → Str) (p : Str) :
    ∀ m : List (Str × List α),
      (∀ kv ∈ m, (∀ d ∈ kv.2, fl d ≠ p) ∧ kv.2 ≠ []) → removeBucketsOf fl p m = m := by
  intro m
  induction m with
  | nil => intro _; rfl
  | cons kv m ih =>
    intro h
    have hstep : kv.2.filter (fun d => decide (fl d ≠ p)) = kv.2 :=
      List.filter_eq_self.mpr fun a ha =>
        by simpa using (h kv (List.mem_cons_self _ _)).1 a ha
    have hne : (!kv.2.isEmpty) = true := by
      have := (h kv (List.mem_cons_self _ _)).2
      simpa [List.isEmpty_iff] using this
    simp only [removeBucketsOf, List.map_cons, List.filter_cons, hstep, hne]
    first
      | rw [if_pos rfl]
      | rw [if_pos trivial]
    have ih2 := ih fun kv2 hkv2 => h kv2 (List.mem_cons_of_mem _ hkv2)
    simp only [removeBucketsOf] at ih2
    rw [ih2]

theorem filter_files_insert (fs : List (Str × FileAnalysis)) (p : Str) (fa : FileAnalysis)
    (h : ∀ kv ∈ fs, kv.1 ≠ p) :
    (insertFile fs p fa).filter (fun kv => kv.1 ≠ p) = fs := by
  have hc : fs.any (fun kv => kv.1 = p) = false := by
    rw [List.any_eq_false]
    intro kv hkv
    simpa using h kv hkv
  simp only [insertFile, hc]
  first
    | rw [if_neg (by simp)]
  rw [List.filter_append]
  have h1 : fs.filter (fun kv => decide (kv.1 ≠ p)) = fs :=
    List.filter_eq_self.mpr fun kv hkv => by simpa using h kv hkv
  have h2 : ([(p, fa)] : List (Str × FileAnalysis)).filter (fun kv => decide (kv.1 ≠ p)) = [] := by
    simp
  rw [h1, h2, List.append_nil]

/-- Removing `path` directly after analyzing it restores a state that held
nothing of `path`: the crux of idempotence of `reanalyze`. -/
theorem removeFile_analyzeFile (u : WorldIndex) (p t : Str)
    (h1 : ∀ kv ∈ u.definitions, (∀ d ∈ kv.2, d.file ≠ p) ∧ kv.2 ≠ [])
    (h2 : ∀ kv ∈ u.references, (∀ r ∈ kv.2, r.file ≠ p) ∧ kv.2 ≠ [])
    (h3 : ∀ kv ∈ u.files, kv.1 ≠ p)
    (h4 : u.allSymbols = u.definitions.map Prod.fst) :
    (u.analyzeFile p t).removeFile p = u := by
  obtain ⟨D, R, S, F⟩ := u
  have hds := (collect_file p (2 * (tokenize t).length + 2)).2
    (parse t (tokenize t)).file.entries
  simp only [WorldIndex.analyzeFile, WorldIndex.removeFile]
  have hD : removeDefsOf p
      (((collectEntriesF (2 * (tokenize t).length + 2)
          (parse t (tokenize t)).file.entries p).1).foldl pushDef D) = D := by
    show removeBucketsOf SymbolDef.file p _ = D
    have hfold : List.foldl pushDef D
        ((collectEntriesF (2 * (tokenize t).length + 2)
          (parse t (tokenize t)).file.entries p).1) =
        List.foldl (pushBucket SymbolDef.name) D
        ((collectEntriesF (2 * (tokenize t).length + 2)
          (parse t (tokenize t)).file.entries p).1) := rfl
    rw [hfold, removeBucketsOf_foldl SymbolDef.file SymbolDef.name p _ D hds.1]
    exact removeBucketsOf_clean SymbolDef.file p D h1
  have hR : removeRefsOf p
      (((collectEntriesF (2 * (tokenize t).length + 2)
          (parse t (tokenize t)).file.entries p).2).foldl pushRef R) = R := by
    show removeBucketsOf SymbolRef.file p _ = R
    have hfold : List.foldl pushRef R
        ((collectEntriesF (2 * (tokenize t).length + 2)
          (parse t (tokenize t)).file.entries p).2) =
        List.foldl (pushBucket SymbolRef.name) R
        ((collectEntriesF (2 * (tokenize t).length + 2)
          (parse t (tokenize t)).file.entries p).2) := rfl
    rw [hfold, removeBucketsOf_foldl SymbolRef.file SymbolRef.name p _ R hds.2]
    exact removeBucketsOf_clean SymbolRef.file p R h2
  rw [WorldIndex.mk.injEq]
  refine ⟨hD, hR, ?_, ?_⟩
  · rw [hD]
    simp only at h4
    exact h4.symm
  · exact filter_files_insert F p _ h3

/-- C2: running `reanalyze(path, text)` twice in a row with the same text
produces identical definitions and references mappings and identical
diagnostics for the file.  In fact the whole index state after the second
call is the state after the first. -/
theorem C2_reanalyze_idempotent (w : WorldIndex) (p t : Str) :
    ((w.reanalyzeFile p t).reanalyzeFile p t).definitions =
      (w.reanalyzeFile p t).definitions ∧
    ((w.reanalyzeFile p t).reanalyzeFile p t).references =
      (w.reanalyzeFile p t).references ∧
    (filesLookup ((w.reanalyzeFile p t).reanalyzeFile p t).files p).map (·.diagnostics) =
      (filesLookup (w.reanalyzeFile p t).files p).map (·.diagnostics) := by
  have hfull : (w.reanalyzeFile p t).reanalyzeFile p t = w.reanalyzeFile p t := by
    show (((w.removeFile p).analyzeFile p t).removeFile p).analyzeFile p t =
      (w.removeFile p).analyzeFile p t
    rw [removeFile_analyzeFile (w.removeFile p) p t
      (fun kv hkv => removeBucketsOf_mem SymbolDef.file p w.definitions kv hkv)
      (fun kv hkv => removeBucketsOf_mem SymbolRef.file p w.references kv hkv)
      (fun kv hkv => by simpa using (List.mem_filter.mp hkv).2)
      rfl]
  exact ⟨by rw [hfull], by rw [hfull], by rw [hfull]⟩

end Kconfig
